import Mathlib

/-!
Verification development for the log event-correlation and interval-extraction
engine of `src/extract_enhancement_time.py`.

Modelling conventions:

* A raw log line is embedded as a `Line`: the result of running the module's
  fixed regex table on the text.  Each field holds the captured identifier (and
  method tag) of the corresponding pattern, or `none` when the pattern does not
  match.  Timestamps are exact rationals (datetimes have microsecond precision,
  so `total_seconds` of a difference is exact); identifiers are strings.
* Python dicts (insertion ordered, unique keys) are embedded as association
  lists with `dictFind` / `dictInsert` / `dictErase`.
* The per-entry narration-only fields (`timestamp_str`, `type`, `id`,
  `method_num`) stored in the open-interval tables are never read by the
  extraction logic except for `start_time` / `line_num` (and `tool_id` for LLM
  calls), so only those are kept.
* Record dicts carry optional keys (`has_error`, `tool_id`, `llm_id`,
  `tool_duration`, `llm_duration`).  Every read site defaults a missing
  `has_error` to `False` (`enh.get('has_error', False)`), so records are
  flattened into one structure with `has_error := false` and `none` for the
  other keys when absent.
-/

/-- Classified view of one raw log line: which of the module's regular
expressions match and what identifier (and knowledge-method tag) they capture.
`timestamp` is the result of `parse_timestamp` on the line. -/
structure Line where
  timestamp : Option ℚ
  toolStart : Option String
  noTools : Option String
  toolFinished : Option String
  toolError : Option String
  knowledgeStart : Option (String × String)
  knowledgeEnd : Option (String × String)
  llmStart : Option String
  llmEnd : Option String
  discard : Option String
deriving DecidableEq

/-- A log line on which no pattern matches. -/
def blankLine : Line :=
  ⟨none, none, none, none, none, none, none, none, none, none⟩

/-- The `type` string of an emitted enhancement record, as a closed
enumeration.  The `knowledge` constructor keeps the numeric method tag
captured by the regex group, so `knowledge m` stands for the Python string
`'knowledge_enhancement_method' + m`. -/
inductive EnhType where
  | toolFinished
  | toolFailed
  | toolSkipped
  | toolComplete
  | llmCall
  | knowledge (methodNum : String)
deriving DecidableEq

/-- An emitted enhancement record (`_create_enhancement_record` output, plus
the literal dict built for `tool_enhancement_complete`). -/
structure Enh where
  type : EnhType
  start_time : ℚ
  end_time : ℚ
  duration_seconds : ℚ
  start_line : Nat
  end_line : Nat
  node_id : String
  has_error : Bool
  tool_id : Option String
  llm_id : Option String
  tool_duration : Option ℚ
  llm_duration : Option ℚ
deriving DecidableEq

/-- `_create_enhancement_record`: duration is `end_time - start_time` in
seconds.  The two trailing arguments are the only keyword arguments the
module ever passes (`has_error`, `tool_id`). -/
def _create_enhancement_record (enh_type : EnhType) (start_time end_time : ℚ)
    (start_line end_line : Nat) (node_id : String)
    (has_error : Bool) (tool_id : Option String) : Enh :=
  { type := enh_type
    start_time := start_time
    end_time := end_time
    duration_seconds := end_time - start_time
    start_line := start_line
    end_line := end_line
    node_id := node_id
    has_error := has_error
    tool_id := tool_id
    llm_id := none
    tool_duration := none
    llm_duration := none }

/-- Lookup in a Python-dict-as-association-list. -/
def dictFind {α : Type} (d : List (String × α)) (k : String) : Option α :=
  match d with
  | [] => none
  | (k', v) :: rest => if k' = k then some v else dictFind rest k

/-- `d[k] = v`: replace in place if the key is present, else append. -/
def dictInsert {α : Type} (d : List (String × α)) (k : String) (v : α) :
    List (String × α) :=
  match d with
  | [] => [(k, v)]
  | (k', v') :: rest =>
    if k' = k then (k, v) :: rest else (k', v') :: dictInsert rest k v

/-- `d.pop(k)`: drop the first entry with the given key. -/
def dictErase {α : Type} (d : List (String × α)) (k : String) :
    List (String × α) :=
  match d with
  | [] => []
  | (k', v') :: rest =>
    if k' = k then rest else (k', v') :: dictErase rest k

/-- Open tool interval (`active_tools` entry). -/
structure OpenTool where
  line_num : Nat
  start_time : ℚ
deriving DecidableEq

/-- Open knowledge interval (`active_knowledge[key]` entry). -/
structure OpenKnowledge where
  line_num : Nat
  start_time : ℚ
deriving DecidableEq

/-- Open LLM-call interval (`active_llm_calls` entry). -/
structure OpenLlm where
  line_num : Nat
  start_time : ℚ
  tool_id : Option String
deriving DecidableEq

/-- The mutable state of the single extraction pass over the line stream.
`active_knowledge` is keyed by the numeric method tag: the Python key
`f'knowledge_enhancement_method{n}'` is in bijection with `n`. -/
structure PState where
  enhancements : List Enh
  active_tools : List (String × OpenTool)
  active_knowledge : List (String × List (String × OpenKnowledge))
  active_llm_calls : List (String × OpenLlm)
  last_finished_tool_id : Option String
  finished_tool_map : List (String × Enh)
  tool_skipped_ids : List String
deriving DecidableEq

/-- State at the top of the loop. -/
def initState : PState := ⟨[], [], [], [], none, [], []⟩

/-- Lines 163-173: a tool start marker unconditionally (re)writes the open
entry for its identifier. -/
def toolStartPhase (line : Line) (i : Nat) (ts : ℚ) (st : PState) : PState :=
  match line.toolStart with
  | some tool_id =>
    { st with active_tools := dictInsert st.active_tools tool_id ⟨i + 1, ts⟩ }
  | none => st

/-- Lines 175-179: a "No tools has been called" signal adds its identifier to
the skip set. -/
def noToolsPhase (line : Line) (st : PState) : PState :=
  match line.noTools with
  | some tool_id =>
    { st with tool_skipped_ids := st.tool_skipped_ids.insert tool_id }
  | none => st

/-- Lines 181-233: close a tool interval.  A finished match takes precedence
over an error match (`if ... elif ...`); a finished terminator whose
identifier sits in the skip set closes as skipped; an error terminator closes
as failed unconditionally.  A normal finish also records the emitted record in
`finished_tool_map` and arms `last_finished_tool_id` for the Correlator. -/
def toolEndPhase (line : Line) (i : Nat) (ts : ℚ) (st : PState) : PState :=
  let matched : Option (String × Bool × Bool) :=
    match line.toolFinished with
    | some tid => some (tid, false, st.tool_skipped_ids.contains tid)
    | none =>
      match line.toolError with
      | some tid => some (tid, true, false)
      | none => none
  match matched with
  | none => st
  | some (tool_id, has_error, is_skipped) =>
    match dictFind st.active_tools tool_id with
    | none => st
    | some tool =>
      let st' := { st with active_tools := dictErase st.active_tools tool_id }
      if is_skipped then
        { st' with enhancements := st'.enhancements ++
            [_create_enhancement_record EnhType.toolSkipped tool.start_time ts
              tool.line_num (i + 1) tool_id false none] }
      else if has_error then
        { st' with enhancements := st'.enhancements ++
            [_create_enhancement_record EnhType.toolFailed tool.start_time ts
              tool.line_num (i + 1) tool_id true none] }
      else
        let tool_record := _create_enhancement_record EnhType.toolFinished
          tool.start_time ts tool.line_num (i + 1) tool_id false none
        { st' with
            enhancements := st'.enhancements ++ [tool_record]
            last_finished_tool_id := some tool_id
            finished_tool_map := dictInsert st'.finished_tool_map tool_id tool_record }

/-- Lines 235-249: a knowledge start marker unconditionally (re)writes the
open entry for its (method, identifier) pair. -/
def knowledgeStartPhase (line : Line) (i : Nat) (ts : ℚ) (st : PState) : PState :=
  match line.knowledgeStart with
  | some (method_num, knowledge_id) =>
    let inner := (dictFind st.active_knowledge method_num).getD []
    let inner' := dictInsert inner knowledge_id ⟨i + 1, ts⟩
    { st with active_knowledge := dictInsert st.active_knowledge method_num inner' }
  | none => st

/-- Does the line at 0-based position `j` carry a discard signal for `nid`?
This is the lines 262-267 check: `i + 1 < len(lines)` together with the
`DISCARD_PATTERN` search and the captured-group comparison. -/
def nextDiscard (lines : List Line) (j : Nat) (nid : String) : Bool :=
  match lines[j]? with
  | some nl => nl.discard == some nid
  | none => false

/-- Lines 251-277: close a knowledge interval.  For method "2" only, the
record is flagged failed when the immediately next physical line carries a
discard signal for the same identifier. -/
def knowledgeEndPhase (lines : List Line) (line : Line) (i : Nat) (ts : ℚ)
    (st : PState) : PState :=
  match line.knowledgeEnd with
  | some (method_num, knowledge_id) =>
    match dictFind st.active_knowledge method_num with
    | none => st
    | some inner =>
      match dictFind inner knowledge_id with
      | none => st
      | some knowledge =>
        let outer' := dictInsert st.active_knowledge method_num (dictErase inner knowledge_id)
        let st' := { st with active_knowledge := outer' }
        let has_error : Bool :=
          if method_num = "2" then nextDiscard lines (i + 1) knowledge_id
          else false
        { st' with enhancements := st'.enhancements ++
            [_create_enhancement_record (EnhType.knowledge method_num)
              knowledge.start_time ts knowledge.line_num (i + 1) knowledge_id
              has_error none] }
  | none => st

/-- Lines 283-291: the `(tool_id, new last_finished_tool_id)` pair computed
when an LLM-call start marker is seen: if `last_finished_tool_id` is armed and
the previous physical line is the finished terminator for it, link and consume
it, else keep it armed. -/
def llmLink (lines : List Line) (i : Nat) (lf0 : Option String) :
    Option String × Option String :=
  match lf0 with
  | none => (none, none)
  | some lf =>
    if 0 < i then
      match lines[i - 1]? with
      | some prev_line =>
        match prev_line.toolFinished with
        | some fid => if fid = lf then (some lf, none) else (none, some lf)
        | none => (none, some lf)
      | none => (none, some lf)
    else (none, some lf)

/-- Lines 279-307: an LLM-call start marker.  If `last_finished_tool_id` is
armed and the immediately preceding physical line is the finished terminator
for that identifier, the LLM call is linked to it and the armed value is
consumed.  The open entry is created, or re-armed if already open (keeping its
previous link when no new link was made — the Python `if tool_id:` truthiness
test, identifiers being non-empty). -/
def llmStartPhase (lines : List Line) (line : Line) (i : Nat) (ts : ℚ)
    (st : PState) : PState :=
  match line.llmStart with
  | none => st
  | some llm_call_id =>
    let link := llmLink lines i st.last_finished_tool_id
    let st' := { st with last_finished_tool_id := link.2 }
    match dictFind st'.active_llm_calls llm_call_id with
    | none =>
      { st' with active_llm_calls :=
          dictInsert st'.active_llm_calls llm_call_id ⟨i + 1, ts, link.1⟩ }
    | some entry =>
      let entry' : OpenLlm :=
        { line_num := i + 1
          start_time := ts
          tool_id := match link.1 with | some t => some t | none => entry.tool_id }
      { st' with active_llm_calls := dictInsert st'.active_llm_calls llm_call_id entry' }

/-- Lines 309-346: close an LLM-call interval, emitting an `llm_call` record
(the Python `if llm_call.get('start_time')` guard tests the truthiness of a
datetime, hence always passes).  When the entry carries a linked tool
identifier present in `finished_tool_map`, additionally emit the composite
`tool_enhancement_complete` record summing the two durations. -/
def llmEndPhase (line : Line) (i : Nat) (ts : ℚ) (st : PState) : PState :=
  match line.llmEnd with
  | none => st
  | some llm_call_id =>
    match dictFind st.active_llm_calls llm_call_id with
    | none => st
    | some llm_call =>
      let st' := { st with active_llm_calls := dictErase st.active_llm_calls llm_call_id }
      let llm_duration := ts - llm_call.start_time
      let llm_record := _create_enhancement_record EnhType.llmCall
        llm_call.start_time ts llm_call.line_num (i + 1) llm_call_id false
        llm_call.tool_id
      let st'' := { st' with enhancements := st'.enhancements ++ [llm_record] }
      match llm_call.tool_id with
      | none => st''
      | some tool_id =>
        match dictFind st''.finished_tool_map tool_id with
        | none => st''
        | some tool_record =>
          { st'' with enhancements := st''.enhancements ++
              [{ type := EnhType.toolComplete
                 start_time := tool_record.start_time
                 end_time := ts
                 duration_seconds := tool_record.duration_seconds + llm_duration
                 start_line := tool_record.start_line
                 end_line := i + 1
                 node_id := tool_id
                 has_error := false
                 tool_id := some tool_id
                 llm_id := some llm_call_id
                 tool_duration := some tool_record.duration_seconds
                 llm_duration := some llm_duration }] }

/-- One iteration of the `for i, line in enumerate(lines)` loop.  A line with
no parseable timestamp is skipped entirely (`continue`); otherwise the seven
pattern blocks run in source order. -/
def processLine (lines : List Line) (i : Nat) (st : PState) : PState :=
  match lines[i]? with
  | none => st
  | some line =>
    match line.timestamp with
    | none => st
    | some timestamp =>
      llmEndPhase line i timestamp
        (llmStartPhase lines line i timestamp
          (knowledgeEndPhase lines line i timestamp
            (knowledgeStartPhase line i timestamp
              (toolEndPhase line i timestamp
                (noToolsPhase line
                  (toolStartPhase line i timestamp st))))))

/-- Run the loop over the whole line stream. -/
def runLines (lines : List Line) : PState :=
  (List.range lines.length).foldl (fun st i => processLine lines i st) initState

/-- Lines 348-360: an unfinished tool interval becomes a skipped record with
end = start (so start-line = end-line) and its duration then forced to `0.0`. -/
def eofSkipRecord (tool_id : String) (tool : OpenTool) : Enh :=
  { _create_enhancement_record EnhType.toolSkipped tool.start_time
      tool.start_time tool.line_num tool.line_num tool_id false none with
    duration_seconds := 0 }

/-- `extract_enhancement_times`: the full single pass followed by the
end-of-stream sweep over the still-open tool intervals. -/
def extract_enhancement_times (lines : List Line) : List Enh :=
  let st := runLines lines
  st.enhancements ++ st.active_tools.map (fun p => eofSkipRecord p.1 p.2)

/-- The seven fixed keys of the statistics dict built by
`calculate_statistics`. -/
inductive StatKey where
  | toolFinished
  | toolFailed
  | toolSkipped
  | toolComplete
  | llmCall
  | knowledgeMethod1
  | knowledgeMethod2
deriving DecidableEq

/-- One statistics entry.  `min_time` starts at `float('inf')`, embedded as
`none`; all other times are exact rationals. -/
structure StatEntry where
  count : Nat
  total_time : ℚ
  avg_time : ℚ
  min_time : Option ℚ
  max_time : ℚ
  failed_count : Nat
deriving DecidableEq

/-- `_create_default_stat_entry`. -/
def _create_default_stat_entry : StatEntry :=
  { count := 0
    total_time := 0
    avg_time := 0
    min_time := none
    max_time := 0
    failed_count := 0 }

/-- `min` against a possibly-infinite current minimum. -/
def minTimeUpdate : Option ℚ → ℚ → Option ℚ
  | none, d => some d
  | some m, d => some (min m d)

/-- `_update_stat_entry` acting on one entry: bump the success or failure
counter, and fold the duration into total/min/max. -/
def _update_stat_entry (stat : StatEntry) (duration : ℚ) (is_failed : Bool) :
    StatEntry :=
  { stat with
    count := if is_failed then stat.count else stat.count + 1
    failed_count := if is_failed then stat.failed_count + 1 else stat.failed_count
    total_time := stat.total_time + duration
    min_time := minTimeUpdate stat.min_time duration
    max_time := max stat.max_time duration }

/-- Point update of the statistics table. -/
def updateStat (s : StatKey → StatEntry) (k : StatKey)
    (f : StatEntry → StatEntry) : StatKey → StatEntry :=
  fun k' => if k' = k then f (s k') else s k'

/-- The dispatch chain of `calculate_statistics` (lines 414-433) for one
record.  The Python guards `'method1' in enh_type` / `'method2' in enh_type`,
applied to `'knowledge_enhancement_method' + m` with `m` a digit string,
hold exactly when `m` starts with `"1"` (resp. `"2"`): the only occurrence of
`"method"` in the constant prefix is its final word, and `m` contains no
letters.  A skipped record only bumps the skip counter — its duration is
never folded into any time field. -/
def statStep (s : StatKey → StatEntry) (enh : Enh) : StatKey → StatEntry :=
  match enh.type with
  | EnhType.toolFinished =>
    updateStat s StatKey.toolFinished
      (fun e => _update_stat_entry e enh.duration_seconds false)
  | EnhType.toolFailed =>
    updateStat s StatKey.toolFailed
      (fun e => _update_stat_entry e enh.duration_seconds true)
  | EnhType.toolSkipped =>
    updateStat s StatKey.toolSkipped (fun e => { e with count := e.count + 1 })
  | EnhType.llmCall =>
    updateStat s StatKey.llmCall
      (fun e => _update_stat_entry e enh.duration_seconds false)
  | EnhType.knowledge m =>
    if m.startsWith "1" then
      updateStat s StatKey.knowledgeMethod1
        (fun e => _update_stat_entry e enh.duration_seconds false)
    else if m.startsWith "2" then
      updateStat s StatKey.knowledgeMethod2
        (fun e => _update_stat_entry e enh.duration_seconds enh.has_error)
    else s
  | EnhType.toolComplete =>
    updateStat s StatKey.toolComplete
      (fun e => _update_stat_entry e enh.duration_seconds false)

/-- The final fix-up loop of `calculate_statistics` (lines 436-442): when the
entry was touched, compute the average and collapse an untouched infinite
minimum to `0.0`. -/
def avgFix (e : StatEntry) : StatEntry :=
  if 0 < e.count + e.failed_count then
    { e with
      avg_time := e.total_time / ((e.count : ℚ) + (e.failed_count : ℚ))
      min_time := match e.min_time with | none => some 0 | some m => some m }
  else e

/-- `calculate_statistics`. -/
def calculate_statistics (enhancements : List Enh) : StatKey → StatEntry :=
  fun k => avgFix (enhancements.foldl statStep (fun _ => _create_default_stat_entry) k)

/-- The bucket lists built by `_classify_enhancements`. -/
structure Classified where
  tool_finished : List Enh
  tool_failed : List Enh
  tool_skipped : List Enh
  tool_complete : List Enh
  method1 : List Enh
  method2 : List Enh
  method2_discarded : List Enh
  knowledge : List Enh
  llm_call : List Enh
  all : List Enh
  all_success : List Enh
deriving DecidableEq

/-- All buckets empty. -/
def emptyClassified : Classified :=
  ⟨[], [], [], [], [], [], [], [], [], [], []⟩

/-- One iteration of the `_classify_enhancements` loop (lines 580-611).  The
knowledge branches compare the type string for exact equality with the
method-1 / method-2 constants, so only `m = "1"` / `m = "2"` are routed. -/
def classifyStep (c : Classified) (enh : Enh) : Classified :=
  match enh.type with
  | EnhType.toolFinished =>
    { c with tool_finished := c.tool_finished ++ [enh] }
  | EnhType.toolFailed =>
    { c with tool_failed := c.tool_failed ++ [enh], all := c.all ++ [enh] }
  | EnhType.toolSkipped =>
    { c with tool_skipped := c.tool_skipped ++ [enh], all := c.all ++ [enh] }
  | EnhType.toolComplete =>
    { c with tool_complete := c.tool_complete ++ [enh], all := c.all ++ [enh]
             all_success := c.all_success ++ [enh] }
  | EnhType.llmCall =>
    { c with llm_call := c.llm_call ++ [enh] }
  | EnhType.knowledge m =>
    if m = "1" then
      { c with method1 := c.method1 ++ [enh], knowledge := c.knowledge ++ [enh]
               all := c.all ++ [enh]
               all_success :=
                 if enh.has_error then c.all_success else c.all_success ++ [enh] }
    else if m = "2" then
      { c with method2 := c.method2 ++ [enh], knowledge := c.knowledge ++ [enh]
               all := c.all ++ [enh]
               method2_discarded :=
                 if enh.has_error then c.method2_discarded ++ [enh]
                 else c.method2_discarded
               all_success :=
                 if enh.has_error then c.all_success else c.all_success ++ [enh] }
    else c

/-- `_classify_enhancements`. -/
def _classify_enhancements (enhancements : List Enh) : Classified :=
  enhancements.foldl classifyStep emptyClassified

/-- State after the loop has consumed the first `k` lines. -/
def runUpTo (lines : List Line) (k : Nat) : PState :=
  (List.range k).foldl (fun st i => processLine lines i st) initState

/-- Keys of a dict-as-association-list are pairwise distinct. -/
def DictNodup {α : Type} (d : List (String × α)) : Prop :=
  (d.map Prod.fst).Nodup

/-- A well-formed 36-character identifier used in concrete example logs. -/
def uuidA : String := "aaaaaaaa-aaaa-aaaa-aaaa-aaaaaaaaaaaa"

/-- A second identifier. -/
def uuidB : String := "bbbbbbbb-bbbb-bbbb-bbbb-bbbbbbbbbbbb"

/-- A third identifier. -/
def uuidC : String := "cccccccc-cccc-cccc-cccc-cccccccccccc"

/-- A fourth identifier. -/
def uuidD : String := "dddddddd-dddd-dddd-dddd-dddddddddddd"

/-- A tool interval flagged by a skip signal and then terminated by a
finished marker: started, "No tools has been called", finished. -/
def skipSignalLines (t0 t1 t2 : ℚ) : List Line :=
  [{ blankLine with timestamp := some t0, toolStart := some uuidA },
   { blankLine with timestamp := some t1, noTools := some uuidA },
   { blankLine with timestamp := some t2, toolFinished := some uuidA }]

/-- A tool interval flagged by a skip signal and then terminated by an error
marker: started, "No tools has been called", failed. -/
def errSignalLines (t0 t1 t2 : ℚ) : List Line :=
  [{ blankLine with timestamp := some t0, toolStart := some uuidA },
   { blankLine with timestamp := some t1, noTools := some uuidA },
   { blankLine with timestamp := some t2, toolError := some uuidA }]

/-- Two tool-start markers for the same identifier before its finished
terminator. -/
def rearmLines : List Line :=
  [{ blankLine with timestamp := some 0, toolStart := some uuidA },
   { blankLine with timestamp := some 10, toolStart := some uuidA },
   { blankLine with timestamp := some 11, toolFinished := some uuidA }]

/-- A knowledge-method-2 interval closed normally and followed on the very
next line by a discard signal for the same identifier. -/
def kmDiscardLines : List Line :=
  [{ blankLine with timestamp := some 0, knowledgeStart := some ("2", uuidC) },
   { blankLine with timestamp := some 3, knowledgeEnd := some ("2", uuidC) },
   { blankLine with timestamp := some 4, discard := some uuidC }]

/-- The same shape for knowledge method 1. -/
def km1DiscardLines : List Line :=
  [{ blankLine with timestamp := some 0, knowledgeStart := some ("1", uuidC) },
   { blankLine with timestamp := some 3, knowledgeEnd := some ("1", uuidC) },
   { blankLine with timestamp := some 4, discard := some uuidC }]

/-- A knowledge-method-1 interval opened and never terminated. -/
def kmOpenLines : List Line :=
  [{ blankLine with timestamp := some 0, knowledgeStart := some ("1", uuidC) }]

/-- An LLM-call interval opened and never terminated. -/
def llmOpenLines : List Line :=
  [{ blankLine with timestamp := some 0, llmStart := some uuidB }]

/-- A tool interval opened and finished normally, with no LLM call after. -/
def finishedOnlyLines : List Line :=
  [{ blankLine with timestamp := some 0, toolStart := some uuidA },
   { blankLine with timestamp := some 1, toolFinished := some uuidA }]

/-- The routing predicate of `_classify_enhancements` for its `'all'` bucket,
read off the dispatch chain: failed, skipped and composite tool records and
knowledge records are appended to `'all'`; finished tool records and LLM-call
records are not. -/
def inAllBucket (e : Enh) : Bool :=
  match e.type with
  | EnhType.toolFailed => true
  | EnhType.toolSkipped => true
  | EnhType.toolComplete => true
  | EnhType.knowledge m => m == "1" || m == "2"
  | _ => false

/-- The routing predicate of `_classify_enhancements` for its `'all_success'`
bucket: composite tool records always, knowledge records when not flagged
failed. -/
def inAllSuccessBucket (e : Enh) : Bool :=
  match e.type with
  | EnhType.toolComplete => true
  | EnhType.knowledge m => (m == "1" || m == "2") && !e.has_error
  | _ => false

/-- Does a record's duration get folded into the statistics entry of key `k`?
Read off the dispatch chain of `calculate_statistics`: each record feeds the
entry of its own category — the knowledge branches keyed by whether the
method tag starts with "1", else with "2" (the `'method1' in enh_type` /
`'method2' in enh_type` substring tests) — except that a skipped record only
bumps its counter and feeds no time into any entry. -/
def timedInBucket (k : StatKey) (e : Enh) : Bool :=
  match e.type, k with
  | EnhType.toolFinished, StatKey.toolFinished => true
  | EnhType.toolFailed, StatKey.toolFailed => true
  | EnhType.llmCall, StatKey.llmCall => true
  | EnhType.toolComplete, StatKey.toolComplete => true
  | EnhType.knowledge m, StatKey.knowledgeMethod1 => m.startsWith "1"
  | EnhType.knowledge m, StatKey.knowledgeMethod2 =>
    !(m.startsWith "1") && m.startsWith "2"
  | _, _ => false

/-- The minimal correlation episode: a tool started/finished pair, an
LLM-call start on the very next physical line after the finished line, and
the LLM-call end. -/
def llmLinkScenario (t0 t1 t2 t3 : ℚ) : List Line :=
  [{ blankLine with timestamp := some t0, toolStart := some uuidA },
   { blankLine with timestamp := some t1, toolFinished := some uuidA },
   { blankLine with timestamp := some t2, llmStart := some uuidB },
   { blankLine with timestamp := some t3, llmEnd := some uuidB }]

/-- Two full correlation episodes for the same tool identifier. -/
def doubleEpisodeLines : List Line :=
  [{ blankLine with timestamp := some 0, toolStart := some uuidA },
   { blankLine with timestamp := some 1, toolFinished := some uuidA },
   { blankLine with timestamp := some 2, llmStart := some uuidB },
   { blankLine with timestamp := some 3, llmEnd := some uuidB },
   { blankLine with timestamp := some 4, toolStart := some uuidA },
   { blankLine with timestamp := some 5, toolFinished := some uuidA },
   { blankLine with timestamp := some 6, llmStart := some uuidD },
   { blankLine with timestamp := some 7, llmEnd := some uuidD }]

/-- The same tool identifier opened, finished, re-opened and finished
again. -/
def doubleCloseLines : List Line :=
  [{ blankLine with timestamp := some 0, toolStart := some uuidA },
   { blankLine with timestamp := some 1, toolFinished := some uuidA },
   { blankLine with timestamp := some 2, toolStart := some uuidA },
   { blankLine with timestamp := some 3, toolFinished := some uuidA }]

/-- Is `e` a tool-category record (finished, failed or skipped — the
composite tool-complete records excluded) for identifier `X`? -/
def isToolRecord (X : String) (e : Enh) : Bool :=
  (e.type == EnhType.toolFinished || e.type == EnhType.toolFailed ||
    e.type == EnhType.toolSkipped) && e.node_id == X

/-- Number of tool-category records for `X`. -/
def toolRecCount (X : String) (l : List Enh) : Nat := l.countP (isToolRecord X)

/-- Number of knowledge records of method `m` for `X`. -/
def kmRecCount (m X : String) (l : List Enh) : Nat :=
  l.countP (fun e => e.type == EnhType.knowledge m && e.node_id == X)

/-- Number of LLM-call records for `X`. -/
def llmRecCount (X : String) (l : List Enh) : Nat :=
  l.countP (fun e => e.type == EnhType.llmCall && e.node_id == X)

/-- Number of effective tool start markers for `X` (a start marker on a line
with no timestamp is inert). -/
def toolStartCount (X : String) (lines : List Line) : Nat :=
  lines.countP (fun l => l.timestamp.isSome && l.toolStart == some X)

/-- Number of effective knowledge start markers for `(m, X)`. -/
def kmStartCount (m X : String) (lines : List Line) : Nat :=
  lines.countP (fun l => l.timestamp.isSome && l.knowledgeStart == some (m, X))

/-- Number of effective LLM-call start markers for `X`. -/
def llmStartCount (X : String) (lines : List Line) : Nat :=
  lines.countP (fun l => l.timestamp.isSome && l.llmStart == some X)

/-- The open-table well-formedness maintained by the pass: the tool and
LLM-call tables have distinct keys, and every inner knowledge table has
distinct keys. -/
def StateOK (st : PState) : Prop :=
  DictNodup st.active_tools ∧ DictNodup st.active_llm_calls ∧
  ∀ m inner, dictFind st.active_knowledge m = some inner → DictNodup inner

/-- The open-interval indicator for a tool identifier. -/
def toolOpenInd (st : PState) (X : String) : Nat :=
  (dictFind st.active_tools X).isSome.toNat

/-- The open-interval indicator for a (method, identifier) knowledge pair. -/
def kmOpenInd (st : PState) (m X : String) : Nat :=
  ((dictFind st.active_knowledge m).bind (fun inner => dictFind inner X)).isSome.toNat

/-- The open-interval indicator for an LLM-call identifier. -/
def llmOpenInd (st : PState) (X : String) : Nat :=
  (dictFind st.active_llm_calls X).isSome.toNat

/-- Contribution of line `i` to the effective tool start count for `X`. -/
def toolWeight (X : String) (lines : List Line) (i : Nat) : Nat :=
  match lines[i]? with
  | some l => if l.timestamp.isSome && (l.toolStart == some X) then 1 else 0
  | none => 0

/-- Contribution of line `i` to the effective knowledge start count. -/
def kmWeight (m X : String) (lines : List Line) (i : Nat) : Nat :=
  match lines[i]? with
  | some l => if l.timestamp.isSome && (l.knowledgeStart == some (m, X)) then 1 else 0
  | none => 0

/-- Contribution of line `i` to the effective LLM-call start count. -/
def llmWeight (X : String) (lines : List Line) (i : Nat) : Nat :=
  match lines[i]? with
  | some l => if l.timestamp.isSome && (l.llmStart == some X) then 1 else 0
  | none => 0

/-- A lone tool-start marker on a line with no parseable timestamp. -/
def c9NoTsLines : List Line := [{ blankLine with toolStart := some uuidA }]

/-- A lone orphan finished terminator (no interval was ever opened). -/
def c9OrphanLines : List Line :=
  [{ blankLine with timestamp := some 0, toolFinished := some uuidA }]

theorem runUpTo_succ (lines : List Line) (k : Nat) :
    runUpTo lines (k + 1) = processLine lines k (runUpTo lines k) := by
  simp [runUpTo, List.range_succ]

theorem runLines_eq_runUpTo (lines : List Line) :
    runLines lines = runUpTo lines lines.length := rfl

theorem runUpTo_invariant (lines : List Line) (P : PState → Prop)
    (h0 : P initState)
    (hstep : ∀ i st, P st → P (processLine lines i st)) :
    ∀ k, P (runUpTo lines k) := by
  intro k
  induction k with
  | zero => exact h0
  | succ n ih => rw [runUpTo_succ]; exact hstep n _ ih

theorem dictFind_insert_self {α : Type} (d : List (String × α)) (k : String)
    (v : α) : dictFind (dictInsert d k v) k = some v := by
  induction d with
  | nil => simp [dictInsert, dictFind]
  | cons p rest ih =>
    by_cases h : p.1 = k
    · simp [dictInsert, dictFind, h]
    · simp [dictInsert, dictFind, h, ih]

theorem dictFind_insert_ne {α : Type} (d : List (String × α)) (k k' : String)
    (v : α) (h : k' ≠ k) :
    dictFind (dictInsert d k v) k' = dictFind d k' := by
  have hk : (k = k') = False := eq_false (fun hh => h hh.symm)
  induction d with
  | nil => simp [dictInsert, dictFind, hk]
  | cons p rest ih =>
    by_cases hp : p.1 = k
    · simp [dictInsert, dictFind, hp, hk]
    · simp only [dictInsert, if_neg hp, dictFind]
      by_cases hp' : p.1 = k'
      · simp [hp']
      · simp [hp', ih]

theorem dictFind_erase_ne {α : Type} (d : List (String × α)) (k k' : String)
    (h : k' ≠ k) : dictFind (dictErase d k) k' = dictFind d k' := by
  induction d with
  | nil => simp [dictErase, dictFind]
  | cons p rest ih =>
    by_cases hp : p.1 = k
    · have hk : (p.1 = k') = False := eq_false (fun hh => h (hh.symm.trans hp))
      simp [dictErase, dictFind, hp, hk, hp ▸ hk]
    · simp only [dictErase, if_neg hp, dictFind]
      by_cases hp' : p.1 = k'
      · simp [hp']
      · simp [hp', ih]

theorem dictFind_eq_none {α : Type} (d : List (String × α)) (k : String)
    (h : k ∉ d.map Prod.fst) : dictFind d k = none := by
  induction d with
  | nil => rfl
  | cons p rest ih =>
    simp only [List.map_cons, List.mem_cons] at h
    push_neg at h
    have h1 : (p.1 = k) = False := eq_false (fun hh => h.1 hh.symm)
    simp [dictFind, h1, ih h.2]

theorem dictErase_keys_subset {α : Type} (d : List (String × α)) (k k' : String)
    (h : k' ∈ (dictErase d k).map Prod.fst) : k' ∈ d.map Prod.fst := by
  induction d with
  | nil => exact h
  | cons p rest ih =>
    by_cases hp : p.1 = k
    · simp only [dictErase, if_pos hp] at h
      simp only [List.map_cons, List.mem_cons]
      exact Or.inr h
    · simp only [dictErase, if_neg hp, List.map_cons, List.mem_cons] at h ⊢
      rcases h with h | h
      · exact Or.inl h
      · exact Or.inr (ih h)

theorem dictErase_nodup {α : Type} (d : List (String × α)) (k : String)
    (h : DictNodup d) : DictNodup (dictErase d k) := by
  induction d with
  | nil => exact h
  | cons p rest ih =>
    simp only [DictNodup, List.map_cons, List.nodup_cons] at h
    by_cases hp : p.1 = k
    · simpa [DictNodup, dictErase, hp] using h.2
    · simp only [DictNodup, dictErase, if_neg hp, List.map_cons, List.nodup_cons]
      exact ⟨fun hm => h.1 (dictErase_keys_subset rest k p.1 hm), ih h.2⟩

theorem dictFind_erase_self {α : Type} (d : List (String × α)) (k : String)
    (h : DictNodup d) : dictFind (dictErase d k) k = none := by
  induction d with
  | nil => rfl
  | cons p rest ih =>
    simp only [DictNodup, List.map_cons, List.nodup_cons] at h
    by_cases hp : p.1 = k
    · simp only [dictErase, if_pos hp]
      exact dictFind_eq_none rest k (hp ▸ h.1)
    · simp only [dictErase, if_neg hp, dictFind, if_neg hp]
      exact ih h.2

theorem dictInsert_keys {α : Type} (d : List (String × α)) (k k' : String)
    (v : α) (h : k' ∈ (dictInsert d k v).map Prod.fst) :
    k' = k ∨ k' ∈ d.map Prod.fst := by
  induction d with
  | nil => simpa [dictInsert] using h
  | cons p rest ih =>
    by_cases hp : p.1 = k
    · simp only [dictInsert, if_pos hp, List.map_cons, List.mem_cons] at h
      rcases h with h | h
      · exact Or.inl h
      · exact Or.inr (by simp only [List.map_cons, List.mem_cons]; exact Or.inr h)
    · simp only [dictInsert, if_neg hp, List.map_cons, List.mem_cons] at h ⊢
      rcases h with h | h
      · exact Or.inr (Or.inl h)
      · rcases ih h with h' | h'
        · exact Or.inl h'
        · exact Or.inr (Or.inr h')

theorem toolStartPhase_none (line : Line) (i : Nat) (ts : ℚ) (st : PState)
    (h : line.toolStart = none) : toolStartPhase line i ts st = st := by
  simp [toolStartPhase, h]

theorem toolStartPhase_some (line : Line) (i : Nat) (ts : ℚ) (st : PState)
    (tid : String) (h : line.toolStart = some tid) :
    toolStartPhase line i ts st =
      { st with active_tools := dictInsert st.active_tools tid ⟨i + 1, ts⟩ } := by
  simp [toolStartPhase, h]

theorem noToolsPhase_none (line : Line) (st : PState)
    (h : line.noTools = none) : noToolsPhase line st = st := by
  simp [noToolsPhase, h]

theorem noToolsPhase_some (line : Line) (st : PState) (tid : String)
    (h : line.noTools = some tid) :
    noToolsPhase line st =
      { st with tool_skipped_ids := st.tool_skipped_ids.insert tid } := by
  simp [noToolsPhase, h]

theorem toolEndPhase_noMatch (line : Line) (i : Nat) (ts : ℚ) (st : PState)
    (h1 : line.toolFinished = none) (h2 : line.toolError = none) :
    toolEndPhase line i ts st = st := by
  simp [toolEndPhase, h1, h2]

theorem toolEndPhase_finished_notOpen (line : Line) (i : Nat) (ts : ℚ)
    (st : PState) (tid : String) (h : line.toolFinished = some tid)
    (h2 : dictFind st.active_tools tid = none) :
    toolEndPhase line i ts st = st := by
  simp [toolEndPhase, h, h2]

theorem toolEndPhase_error_notOpen (line : Line) (i : Nat) (ts : ℚ)
    (st : PState) (tid : String) (h1 : line.toolFinished = none)
    (h2 : line.toolError = some tid)
    (h3 : dictFind st.active_tools tid = none) :
    toolEndPhase line i ts st = st := by
  simp [toolEndPhase, h1, h2, h3]

theorem toolEndPhase_finished_skipped (line : Line) (i : Nat) (ts : ℚ)
    (st : PState) (tid : String) (tool : OpenTool)
    (h : line.toolFinished = some tid)
    (hsk : tid ∈ st.tool_skipped_ids)
    (hopen : dictFind st.active_tools tid = some tool) :
    toolEndPhase line i ts st =
      { st with
          active_tools := dictErase st.active_tools tid
          enhancements := st.enhancements ++
            [_create_enhancement_record EnhType.toolSkipped tool.start_time ts
              tool.line_num (i + 1) tid false none] } := by
  simp [toolEndPhase, h, hsk, hopen]

theorem toolEndPhase_finished_ok (line : Line) (i : Nat) (ts : ℚ)
    (st : PState) (tid : String) (tool : OpenTool)
    (h : line.toolFinished = some tid)
    (hsk : tid ∉ st.tool_skipped_ids)
    (hopen : dictFind st.active_tools tid = some tool) :
    toolEndPhase line i ts st =
      { st with
          active_tools := dictErase st.active_tools tid
          enhancements := st.enhancements ++
            [_create_enhancement_record EnhType.toolFinished tool.start_time ts
              tool.line_num (i + 1) tid false none]
          last_finished_tool_id := some tid
          finished_tool_map := dictInsert st.finished_tool_map tid
            (_create_enhancement_record EnhType.toolFinished tool.start_time ts
              tool.line_num (i + 1) tid false none) } := by
  simp [toolEndPhase, h, hsk, hopen]

theorem toolEndPhase_error_open (line : Line) (i : Nat) (ts : ℚ)
    (st : PState) (tid : String) (tool : OpenTool)
    (h1 : line.toolFinished = none) (h2 : line.toolError = some tid)
    (hopen : dictFind st.active_tools tid = some tool) :
    toolEndPhase line i ts st =
      { st with
          active_tools := dictErase st.active_tools tid
          enhancements := st.enhancements ++
            [_create_enhancement_record EnhType.toolFailed tool.start_time ts
              tool.line_num (i + 1) tid true none] } := by
  simp [toolEndPhase, h1, h2, hopen]

theorem knowledgeStartPhase_none (line : Line) (i : Nat) (ts : ℚ)
    (st : PState) (h : line.knowledgeStart = none) :
    knowledgeStartPhase line i ts st = st := by
  simp [knowledgeStartPhase, h]

theorem knowledgeStartPhase_some (line : Line) (i : Nat) (ts : ℚ)
    (st : PState) (m kid : String) (h : line.knowledgeStart = some (m, kid)) :
    knowledgeStartPhase line i ts st =
      { st with active_knowledge := dictInsert st.active_knowledge m (dictInsert ((dictFind st.active_knowledge m).getD []) kid ⟨i + 1, ts⟩) } := by
  simp [knowledgeStartPhase, h]

theorem knowledgeEndPhase_none (lines : List Line) (line : Line) (i : Nat)
    (ts : ℚ) (st : PState) (h : line.knowledgeEnd = none) :
    knowledgeEndPhase lines line i ts st = st := by
  simp [knowledgeEndPhase, h]

theorem knowledgeEndPhase_noMethod (lines : List Line) (line : Line) (i : Nat)
    (ts : ℚ) (st : PState) (m kid : String)
    (h : line.knowledgeEnd = some (m, kid))
    (h2 : dictFind st.active_knowledge m = none) :
    knowledgeEndPhase lines line i ts st = st := by
  simp [knowledgeEndPhase, h, h2]

theorem knowledgeEndPhase_notOpen (lines : List Line) (line : Line) (i : Nat)
    (ts : ℚ) (st : PState) (m kid : String)
    (inner : List (String × OpenKnowledge))
    (h : line.knowledgeEnd = some (m, kid))
    (h2 : dictFind st.active_knowledge m = some inner)
    (h3 : dictFind inner kid = none) :
    knowledgeEndPhase lines line i ts st = st := by
  simp [knowledgeEndPhase, h, h2, h3]

theorem knowledgeEndPhase_close (lines : List Line) (line : Line) (i : Nat)
    (ts : ℚ) (st : PState) (m kid : String)
    (inner : List (String × OpenKnowledge)) (knowledge : OpenKnowledge)
    (h : line.knowledgeEnd = some (m, kid))
    (h2 : dictFind st.active_knowledge m = some inner)
    (h3 : dictFind inner kid = some knowledge) :
    knowledgeEndPhase lines line i ts st =
      { st with
          active_knowledge := dictInsert st.active_knowledge m (dictErase inner kid)
          enhancements := st.enhancements ++
            [_create_enhancement_record (EnhType.knowledge m)
              knowledge.start_time ts knowledge.line_num (i + 1) kid
              (if m = "2" then nextDiscard lines (i + 1) kid else false) none] } := by
  simp [knowledgeEndPhase, h, h2, h3]

theorem llmStartPhase_none (lines : List Line) (line : Line) (i : Nat)
    (ts : ℚ) (st : PState) (h : line.llmStart = none) :
    llmStartPhase lines line i ts st = st := by
  simp [llmStartPhase, h]

theorem llmStartPhase_some_new (lines : List Line) (line : Line) (i : Nat)
    (ts : ℚ) (st : PState) (lid : String) (h : line.llmStart = some lid)
    (h2 : dictFind st.active_llm_calls lid = none) :
    llmStartPhase lines line i ts st =
      { st with
          last_finished_tool_id := (llmLink lines i st.last_finished_tool_id).2
          active_llm_calls := dictInsert st.active_llm_calls lid
            ⟨i + 1, ts, (llmLink lines i st.last_finished_tool_id).1⟩ } := by
  simp [llmStartPhase, h, h2]

theorem llmStartPhase_some_rearm (lines : List Line) (line : Line) (i : Nat)
    (ts : ℚ) (st : PState) (lid : String) (entry : OpenLlm)
    (h : line.llmStart = some lid)
    (h2 : dictFind st.active_llm_calls lid = some entry) :
    llmStartPhase lines line i ts st =
      { st with
          last_finished_tool_id := (llmLink lines i st.last_finished_tool_id).2
          active_llm_calls := dictInsert st.active_llm_calls lid
            ⟨i + 1, ts,
              match (llmLink lines i st.last_finished_tool_id).1 with
              | some t => some t
              | none => entry.tool_id⟩ } := by
  simp [llmStartPhase, h, h2]

theorem llmEndPhase_none (line : Line) (i : Nat) (ts : ℚ) (st : PState)
    (h : line.llmEnd = none) : llmEndPhase line i ts st = st := by
  simp [llmEndPhase, h]

theorem llmEndPhase_notOpen (line : Line) (i : Nat) (ts : ℚ) (st : PState)
    (lid : String) (h : line.llmEnd = some lid)
    (h2 : dictFind st.active_llm_calls lid = none) :
    llmEndPhase line i ts st = st := by
  simp [llmEndPhase, h, h2]

theorem llmEndPhase_close_noLink (line : Line) (i : Nat) (ts : ℚ)
    (st : PState) (lid : String) (llm_call : OpenLlm)
    (h : line.llmEnd = some lid)
    (h2 : dictFind st.active_llm_calls lid = some llm_call)
    (h3 : llm_call.tool_id = none) :
    llmEndPhase line i ts st =
      { st with
          active_llm_calls := dictErase st.active_llm_calls lid
          enhancements := st.enhancements ++
            [_create_enhancement_record EnhType.llmCall llm_call.start_time ts
              llm_call.line_num (i + 1) lid false llm_call.tool_id] } := by
  simp [llmEndPhase, h, h2, h3]

theorem llmEndPhase_close_linkMissing (line : Line) (i : Nat) (ts : ℚ)
    (st : PState) (lid tid : String) (llm_call : OpenLlm)
    (h : line.llmEnd = some lid)
    (h2 : dictFind st.active_llm_calls lid = some llm_call)
    (h3 : llm_call.tool_id = some tid)
    (h4 : dictFind st.finished_tool_map tid = none) :
    llmEndPhase line i ts st =
      { st with
          active_llm_calls := dictErase st.active_llm_calls lid
          enhancements := st.enhancements ++
            [_create_enhancement_record EnhType.llmCall llm_call.start_time ts
              llm_call.line_num (i + 1) lid false llm_call.tool_id] } := by
  simp [llmEndPhase, h, h2, h3, h4]

theorem llmEndPhase_close_complete (line : Line) (i : Nat) (ts : ℚ)
    (st : PState) (lid tid : String) (llm_call : OpenLlm) (tool_record : Enh)
    (h : line.llmEnd = some lid)
    (h2 : dictFind st.active_llm_calls lid = some llm_call)
    (h3 : llm_call.tool_id = some tid)
    (h4 : dictFind st.finished_tool_map tid = some tool_record) :
    llmEndPhase line i ts st =
      { st with
          active_llm_calls := dictErase st.active_llm_calls lid
          enhancements := st.enhancements ++
            [_create_enhancement_record EnhType.llmCall llm_call.start_time ts
              llm_call.line_num (i + 1) lid false llm_call.tool_id] ++
            [{ type := EnhType.toolComplete
               start_time := tool_record.start_time
               end_time := ts
               duration_seconds := tool_record.duration_seconds + (ts - llm_call.start_time)
               start_line := tool_record.start_line
               end_line := i + 1
               node_id := tid
               has_error := false
               tool_id := some tid
               llm_id := some lid
               tool_duration := some tool_record.duration_seconds
               llm_duration := some (ts - llm_call.start_time) }] } := by
  simp [llmEndPhase, h, h2, h3, h4]

theorem toolStartPhase_other (line : Line) (i : Nat) (ts : ℚ) (st : PState) :
    (toolStartPhase line i ts st).enhancements = st.enhancements ∧
    (toolStartPhase line i ts st).active_knowledge = st.active_knowledge ∧
    (toolStartPhase line i ts st).active_llm_calls = st.active_llm_calls ∧
    (toolStartPhase line i ts st).last_finished_tool_id = st.last_finished_tool_id ∧
    (toolStartPhase line i ts st).finished_tool_map = st.finished_tool_map ∧
    (toolStartPhase line i ts st).tool_skipped_ids = st.tool_skipped_ids := by
  unfold toolStartPhase
  split <;> exact ⟨rfl, rfl, rfl, rfl, rfl, rfl⟩

theorem noToolsPhase_other (line : Line) (st : PState) :
    (noToolsPhase line st).enhancements = st.enhancements ∧
    (noToolsPhase line st).active_tools = st.active_tools ∧
    (noToolsPhase line st).active_knowledge = st.active_knowledge ∧
    (noToolsPhase line st).active_llm_calls = st.active_llm_calls ∧
    (noToolsPhase line st).last_finished_tool_id = st.last_finished_tool_id ∧
    (noToolsPhase line st).finished_tool_map = st.finished_tool_map := by
  unfold noToolsPhase
  split <;> exact ⟨rfl, rfl, rfl, rfl, rfl, rfl⟩

theorem toolEndPhase_other (line : Line) (i : Nat) (ts : ℚ) (st : PState) :
    (toolEndPhase line i ts st).active_knowledge = st.active_knowledge ∧
    (toolEndPhase line i ts st).active_llm_calls = st.active_llm_calls ∧
    (toolEndPhase line i ts st).tool_skipped_ids = st.tool_skipped_ids := by
  unfold toolEndPhase
  repeat' first
  | exact ⟨rfl, rfl, rfl⟩
  | split
  | dsimp only []

theorem knowledgeStartPhase_other (line : Line) (i : Nat) (ts : ℚ)
    (st : PState) :
    (knowledgeStartPhase line i ts st).enhancements = st.enhancements ∧
    (knowledgeStartPhase line i ts st).active_tools = st.active_tools ∧
    (knowledgeStartPhase line i ts st).active_llm_calls = st.active_llm_calls ∧
    (knowledgeStartPhase line i ts st).last_finished_tool_id = st.last_finished_tool_id ∧
    (knowledgeStartPhase line i ts st).finished_tool_map = st.finished_tool_map ∧
    (knowledgeStartPhase line i ts st).tool_skipped_ids = st.tool_skipped_ids := by
  unfold knowledgeStartPhase
  split <;> exact ⟨rfl, rfl, rfl, rfl, rfl, rfl⟩

theorem knowledgeEndPhase_other (lines : List Line) (line : Line) (i : Nat)
    (ts : ℚ) (st : PState) :
    (knowledgeEndPhase lines line i ts st).active_tools = st.active_tools ∧
    (knowledgeEndPhase lines line i ts st).active_llm_calls = st.active_llm_calls ∧
    (knowledgeEndPhase lines line i ts st).last_finished_tool_id = st.last_finished_tool_id ∧
    (knowledgeEndPhase lines line i ts st).finished_tool_map = st.finished_tool_map ∧
    (knowledgeEndPhase lines line i ts st).tool_skipped_ids = st.tool_skipped_ids := by
  unfold knowledgeEndPhase
  repeat' first
  | exact ⟨rfl, rfl, rfl, rfl, rfl⟩
  | split

theorem llmStartPhase_other (lines : List Line) (line : Line) (i : Nat)
    (ts : ℚ) (st : PState) :
    (llmStartPhase lines line i ts st).enhancements = st.enhancements ∧
    (llmStartPhase lines line i ts st).active_tools = st.active_tools ∧
    (llmStartPhase lines line i ts st).active_knowledge = st.active_knowledge ∧
    (llmStartPhase lines line i ts st).finished_tool_map = st.finished_tool_map ∧
    (llmStartPhase lines line i ts st).tool_skipped_ids = st.tool_skipped_ids := by
  unfold llmStartPhase
  repeat' first
  | exact ⟨rfl, rfl, rfl, rfl, rfl⟩
  | split
  | dsimp only []

theorem llmEndPhase_other (line : Line) (i : Nat) (ts : ℚ) (st : PState) :
    (llmEndPhase line i ts st).active_tools = st.active_tools ∧
    (llmEndPhase line i ts st).active_knowledge = st.active_knowledge ∧
    (llmEndPhase line i ts st).last_finished_tool_id = st.last_finished_tool_id ∧
    (llmEndPhase line i ts st).finished_tool_map = st.finished_tool_map ∧
    (llmEndPhase line i ts st).tool_skipped_ids = st.tool_skipped_ids := by
  unfold llmEndPhase
  repeat' first
  | exact ⟨rfl, rfl, rfl, rfl, rfl⟩
  | split
  | dsimp only []

theorem processLine_outOfRange (lines : List Line) (i : Nat) (st : PState)
    (h : lines[i]? = none) : processLine lines i st = st := by
  simp [processLine, h]

theorem processLine_noTimestamp (lines : List Line) (i : Nat) (st : PState)
    (line : Line) (h : lines[i]? = some line)
    (h2 : line.timestamp = none) : processLine lines i st = st := by
  simp [processLine, h, h2]

theorem processLine_run (lines : List Line) (i : Nat) (st : PState)
    (line : Line) (ts : ℚ) (h : lines[i]? = some line)
    (h2 : line.timestamp = some ts) :
    processLine lines i st =
      llmEndPhase line i ts
        (llmStartPhase lines line i ts
          (knowledgeEndPhase lines line i ts
            (knowledgeStartPhase line i ts
              (toolEndPhase line i ts
                (noToolsPhase line
                  (toolStartPhase line i ts st)))))) := by
  simp [processLine, h, h2]

theorem dictInsert_nodup {α : Type} (d : List (String × α)) (k : String)
    (v : α) (h : DictNodup d) : DictNodup (dictInsert d k v) := by
  induction d with
  | nil => simp [DictNodup, dictInsert]
  | cons p rest ih =>
    simp only [DictNodup, List.map_cons, List.nodup_cons] at h
    by_cases hp : p.1 = k
    · simp only [DictNodup, dictInsert, if_pos hp, List.map_cons, List.nodup_cons]
      exact ⟨hp ▸ h.1, h.2⟩
    · simp only [DictNodup, dictInsert, if_neg hp, List.map_cons, List.nodup_cons]
      refine ⟨fun hm => ?_, ih h.2⟩
      rcases dictInsert_keys rest k p.1 v hm with h' | h'
      · exact hp h'
      · exact h.1 h'

/-- Claim C9: the extraction pass never aborts on malformed content: a line
with no parseable timestamp changes nothing at all — it neither opens nor
closes any interval — and an end/error terminator whose identifier is not
currently open emits no EventRecord and leaves every open-interval table
unchanged (it is silently ignored). -/
theorem extraction_tolerates_malformed_input (lines : List Line) (i : Nat)
    (st : PState) :
    (∀ line, lines[i]? = some line → line.timestamp = none →
      processLine lines i st = st) ∧
    (∀ line ts, lines[i]? = some line → line.timestamp = some ts →
      line.toolStart = none → line.knowledgeStart = none → line.llmStart = none →
      (∀ tid, line.toolFinished = some tid → dictFind st.active_tools tid = none) →
      (∀ tid, line.toolError = some tid → dictFind st.active_tools tid = none) →
      (∀ m kid, line.knowledgeEnd = some (m, kid) →
        dictFind ((dictFind st.active_knowledge m).getD []) kid = none) →
      (∀ lid, line.llmEnd = some lid → dictFind st.active_llm_calls lid = none) →
      (processLine lines i st).enhancements = st.enhancements ∧
      (processLine lines i st).active_tools = st.active_tools ∧
      (processLine lines i st).active_knowledge = st.active_knowledge ∧
      (processLine lines i st).active_llm_calls = st.active_llm_calls) := by
  constructor
  · intro line h h2
    exact processLine_noTimestamp lines i st line h h2
  · intro line ts h h2 hts hks hls hfin herr hke hle
    rw [processLine_run lines i st line ts h h2]
    rw [toolStartPhase_none line i ts st hts]
    obtain ⟨n1, n2, n3, n4, n5, n6⟩ := noToolsPhase_other line st
    have h3 : toolEndPhase line i ts (noToolsPhase line st) = noToolsPhase line st := by
      rcases hf : line.toolFinished with _ | tid
      · rcases he : line.toolError with _ | tid
        · exact toolEndPhase_noMatch _ _ _ _ hf he
        · exact toolEndPhase_error_notOpen _ _ _ _ _ hf he (by rw [n2]; exact herr tid he)
      · exact toolEndPhase_finished_notOpen _ _ _ _ _ hf (by rw [n2]; exact hfin tid hf)
    rw [h3, knowledgeStartPhase_none line i ts _ hks]
    have h5 : knowledgeEndPhase lines line i ts (noToolsPhase line st) = noToolsPhase line st := by
      rcases hk : line.knowledgeEnd with _ | ⟨m, kid⟩
      · exact knowledgeEndPhase_none _ _ _ _ _ hk
      · rcases hm : dictFind (noToolsPhase line st).active_knowledge m with _ | inner
        · exact knowledgeEndPhase_noMethod _ _ _ _ _ _ _ hk hm
        · refine knowledgeEndPhase_notOpen _ _ _ _ _ _ _ _ hk hm ?_
          have hx := hke m kid hk
          rw [n3] at hm
          rw [hm] at hx
          simpa using hx
    rw [h5, llmStartPhase_none lines line i ts _ hls]
    have h7 : llmEndPhase line i ts (noToolsPhase line st) = noToolsPhase line st := by
      rcases hl : line.llmEnd with _ | lid
      · exact llmEndPhase_none _ _ _ _ hl
      · exact llmEndPhase_notOpen _ _ _ _ _ hl (by rw [n4]; exact hle lid hl)
    rw [h7]
    exact ⟨n1, n2, n3, n4⟩

/-- Witness for claim C9 at a concrete no-timestamp line and a concrete
orphan terminator line, both processed from the empty state. -/
theorem extraction_tolerates_malformed_input_witness :
    processLine c9NoTsLines 0 initState = initState ∧
    (processLine c9OrphanLines 0 initState).enhancements = initState.enhancements ∧
    (processLine c9OrphanLines 0 initState).active_tools = initState.active_tools ∧
    (processLine c9OrphanLines 0 initState).active_knowledge = initState.active_knowledge ∧
    (processLine c9OrphanLines 0 initState).active_llm_calls = initState.active_llm_calls := by
  constructor
  · exact (extraction_tolerates_malformed_input c9NoTsLines 0 initState).1 _ rfl rfl
  · exact (extraction_tolerates_malformed_input c9OrphanLines 0 initState).2 _ 0 rfl rfl
      rfl rfl rfl (fun tid _ => rfl) (fun tid h => nomatch h)
      (fun m kid h => nomatch h) (fun lid h => nomatch h)

/-- Claim C6: a skip signal already recorded for a tool identifier makes a
later finished terminator close the interval as a skipped record, not a
finished one, and an error terminator closes an open interval as failed
unconditionally (the skip set is never consulted for errors).  Stated both
for the whole pipeline on the minimal three-line logs and for an arbitrary
loop state at the closing step. -/
theorem skip_signal_priority_over_finished (t0 t1 t2 : ℚ) :
    extract_enhancement_times (skipSignalLines t0 t1 t2) =
      [{ type := EnhType.toolSkipped, start_time := t0, end_time := t2,
         duration_seconds := t2 - t0, start_line := 1, end_line := 3,
         node_id := uuidA, has_error := false, tool_id := none, llm_id := none,
         tool_duration := none, llm_duration := none }] ∧
    extract_enhancement_times (errSignalLines t0 t1 t2) =
      [{ type := EnhType.toolFailed, start_time := t0, end_time := t2,
         duration_seconds := t2 - t0, start_line := 1, end_line := 3,
         node_id := uuidA, has_error := true, tool_id := none, llm_id := none,
         tool_duration := none, llm_duration := none }] ∧
    (∀ (line : Line) (i : Nat) (ts : ℚ) (st : PState) (tid : String)
        (tool : OpenTool), line.toolFinished = some tid →
      tid ∈ st.tool_skipped_ids → dictFind st.active_tools tid = some tool →
      (toolEndPhase line i ts st).enhancements = st.enhancements ++
        [_create_enhancement_record EnhType.toolSkipped tool.start_time ts
          tool.line_num (i + 1) tid false none]) ∧
    (∀ (line : Line) (i : Nat) (ts : ℚ) (st : PState) (tid : String)
        (tool : OpenTool), line.toolFinished = none →
      line.toolError = some tid → dictFind st.active_tools tid = some tool →
      (toolEndPhase line i ts st).enhancements = st.enhancements ++
        [_create_enhancement_record EnhType.toolFailed tool.start_time ts
          tool.line_num (i + 1) tid true none]) := by
  refine ⟨rfl, rfl, ?_, ?_⟩
  · intro line i ts st tid tool h hsk hopen
    rw [toolEndPhase_finished_skipped line i ts st tid tool h hsk hopen]
  · intro line i ts st tid tool h1 h2 hopen
    rw [toolEndPhase_error_open line i ts st tid tool h1 h2 hopen]

/-- Witness for claim C6: the step-level parts applied at the concrete state
reached after the first two lines of the skip-signal log. -/
theorem skip_signal_priority_over_finished_witness :
    (toolEndPhase { blankLine with timestamp := some 5, toolFinished := some uuidA }
        2 5 (runUpTo (skipSignalLines 0 1 5) 2)).enhancements =
      (runUpTo (skipSignalLines 0 1 5) 2).enhancements ++
        [_create_enhancement_record EnhType.toolSkipped 0 5 1 3 uuidA false none] ∧
    (toolEndPhase { blankLine with timestamp := some 5, toolError := some uuidA }
        2 5 (runUpTo (errSignalLines 0 1 5) 2)).enhancements =
      (runUpTo (errSignalLines 0 1 5) 2).enhancements ++
        [_create_enhancement_record EnhType.toolFailed 0 5 1 3 uuidA true none] := by
  constructor
  · exact (skip_signal_priority_over_finished 0 1 5).2.2.1 _ 2 5 _ uuidA ⟨1, 0⟩
      rfl (by decide) (by decide)
  · exact (skip_signal_priority_over_finished 0 1 5).2.2.2 _ 2 5 _ uuidA ⟨1, 0⟩
      rfl rfl (by decide)

/-- Claim C10: a tool interval closed as skipped by a finished terminator
(after a skip signal) keeps the measured duration `terminator timestamp −
start timestamp`, which can be strictly positive — witnessed by the concrete
skip-signal log whose skipped record lasts 5 seconds — while the skipped
records synthesized at end of stream are the ones forced to duration 0 with
start-line = end-line. -/
theorem skipped_by_terminator_keeps_duration :
    (∀ (line : Line) (i : Nat) (ts : ℚ) (st : PState) (tid : String)
        (tool : OpenTool), line.toolFinished = some tid →
      tid ∈ st.tool_skipped_ids → dictFind st.active_tools tid = some tool →
      ∃ r, (toolEndPhase line i ts st).enhancements = st.enhancements ++ [r] ∧
        r.type = EnhType.toolSkipped ∧ r.start_time = tool.start_time ∧
        r.end_time = ts ∧ r.duration_seconds = ts - tool.start_time) ∧
    (∀ (tid : String) (tool : OpenTool),
      (eofSkipRecord tid tool).duration_seconds = 0 ∧
      (eofSkipRecord tid tool).start_line = (eofSkipRecord tid tool).end_line) ∧
    ((extract_enhancement_times (skipSignalLines 0 1 5)).map
        (fun e => (e.type, e.duration_seconds)) = [(EnhType.toolSkipped, 5)] ∧
      (0 : ℚ) < 5) := by
  refine ⟨?_, ?_, ?_, by norm_num⟩
  · intro line i ts st tid tool h hsk hopen
    rw [toolEndPhase_finished_skipped line i ts st tid tool h hsk hopen]
    exact ⟨_, rfl, rfl, rfl, rfl, rfl⟩
  · intro tid tool
    exact ⟨rfl, rfl⟩
  · show [(EnhType.toolSkipped, (5 : ℚ) - 0)] = [(EnhType.toolSkipped, 5)]
    norm_num

/-- Witness for claim C10 at the concrete closing step of the skip-signal
log. -/
theorem skipped_by_terminator_keeps_duration_witness :
    ∃ r, (toolEndPhase { blankLine with timestamp := some 5, toolFinished := some uuidA }
        2 5 (runUpTo (skipSignalLines 0 1 5) 2)).enhancements =
      (runUpTo (skipSignalLines 0 1 5) 2).enhancements ++ [r] ∧
      r.type = EnhType.toolSkipped ∧ r.start_time = 0 ∧ r.end_time = 5 ∧
      r.duration_seconds = 5 - 0 := by
  exact skipped_by_terminator_keeps_duration.1 _ 2 5 _ uuidA ⟨1, 0⟩
    rfl (by decide) (by decide)

/-- Claim C1 (amended): every category re-arms an already-open interval on a
second start marker — knowledge and LLM-call intervals as the claim states,
and tool intervals as well: `active_tools[tool_id] = {...}` overwrites the
open entry with the new start time and start line. -/
theorem start_markers_rearm_all_categories :
    (∀ (line : Line) (i : Nat) (ts : ℚ) (st : PState) (tid : String)
        (old : OpenTool), line.toolStart = some tid →
      dictFind st.active_tools tid = some old →
      dictFind (toolStartPhase line i ts st).active_tools tid = some ⟨i + 1, ts⟩) ∧
    (∀ (line : Line) (i : Nat) (ts : ℚ) (st : PState) (m kid : String)
        (inner : List (String × OpenKnowledge)) (old : OpenKnowledge),
      line.knowledgeStart = some (m, kid) →
      dictFind st.active_knowledge m = some inner →
      dictFind inner kid = some old →
      (dictFind (knowledgeStartPhase line i ts st).active_knowledge m).bind
        (fun inner' => dictFind inner' kid) = some ⟨i + 1, ts⟩) ∧
    (∀ (lines : List Line) (line : Line) (i : Nat) (ts : ℚ) (st : PState)
        (lid : String) (entry : OpenLlm), line.llmStart = some lid →
      dictFind st.active_llm_calls lid = some entry →
      dictFind (llmStartPhase lines line i ts st).active_llm_calls lid =
        some ⟨i + 1, ts,
          match (llmLink lines i st.last_finished_tool_id).1 with
          | some t => some t
          | none => entry.tool_id⟩) := by
  refine ⟨?_, ?_, ?_⟩
  · intro line i ts st tid old h hopen
    rw [toolStartPhase_some line i ts st tid h]
    exact dictFind_insert_self st.active_tools tid ⟨i + 1, ts⟩
  · intro line i ts st m kid inner old h h2 h3
    rw [knowledgeStartPhase_some line i ts st m kid h]
    show (dictFind (dictInsert st.active_knowledge m _) m).bind _ = _
    rw [dictFind_insert_self]
    show dictFind (dictInsert ((dictFind st.active_knowledge m).getD []) kid ⟨i + 1, ts⟩) kid = _
    rw [dictFind_insert_self]
  · intro lines line i ts st lid entry h h2
    rw [llmStartPhase_some_rearm lines line i ts st lid entry h h2]
    exact dictFind_insert_self st.active_llm_calls lid _

/-- Witness for claim C1's amended theorem, at the second start marker of the
concrete re-arm log (the interval for the identifier is already open with
start line 1 and start time 0, and is re-armed to line 2, time 10). -/
theorem start_markers_rearm_all_categories_witness :
    dictFind (toolStartPhase { blankLine with timestamp := some 10, toolStart := some uuidA }
        1 10 (runUpTo rearmLines 1)).active_tools uuidA = some ⟨2, 10⟩ := by
  exact start_markers_rearm_all_categories.1 _ 1 10 _ uuidA ⟨1, 0⟩ rfl (by decide)

/-- Counterexample for claim C1 as stated: in the re-arm log the tool
interval is opened at line 1 (time 0), re-started at line 2 (time 10) and
finished at line 3; the emitted record carries start line 2 — the second
start marker did change the open interval's start, contradicting "a second
tool started marker leaves the open interval's start time and start line
unchanged". -/
theorem tool_rearm_counterexample :
    ((extract_enhancement_times rearmLines).map (fun e => e.start_line) = [2]) ∧
    ¬ ((extract_enhancement_times rearmLines).map (fun e => e.start_line) = [1]) := by
  constructor
  · rfl
  · decide

theorem toolEndPhase_enh_mem (line : Line) (i : Nat) (ts : ℚ) (st : PState)
    (e : Enh) (he : e ∈ (toolEndPhase line i ts st).enhancements) :
    e ∈ st.enhancements ∨ e.type = EnhType.toolSkipped ∨
      e.type = EnhType.toolFailed ∨ e.type = EnhType.toolFinished := by
  rcases hf : line.toolFinished with _ | tid
  · rcases herr : line.toolError with _ | tid
    · rw [toolEndPhase_noMatch _ _ _ _ hf herr] at he
      exact Or.inl he
    · rcases ho : dictFind st.active_tools tid with _ | tool
      · rw [toolEndPhase_error_notOpen _ _ _ _ _ hf herr ho] at he
        exact Or.inl he
      · rw [toolEndPhase_error_open _ _ _ _ _ _ hf herr ho] at he
        simp only [List.mem_append, List.mem_singleton] at he
        rcases he with he | he
        · exact Or.inl he
        · subst he
          exact Or.inr (Or.inr (Or.inl rfl))
  · rcases ho : dictFind st.active_tools tid with _ | tool
    · rw [toolEndPhase_finished_notOpen _ _ _ _ _ hf ho] at he
      exact Or.inl he
    · by_cases hsk : tid ∈ st.tool_skipped_ids
      · rw [toolEndPhase_finished_skipped _ _ _ _ _ _ hf hsk ho] at he
        simp only [List.mem_append, List.mem_singleton] at he
        rcases he with he | he
        · exact Or.inl he
        · subst he
          exact Or.inr (Or.inl rfl)
      · rw [toolEndPhase_finished_ok _ _ _ _ _ _ hf hsk ho] at he
        simp only [List.mem_append, List.mem_singleton] at he
        rcases he with he | he
        · exact Or.inl he
        · subst he
          exact Or.inr (Or.inr (Or.inr rfl))

theorem knowledgeEndPhase_enh_mem (lines : List Line) (line : Line) (i : Nat)
    (ts : ℚ) (st : PState) (e : Enh)
    (he : e ∈ (knowledgeEndPhase lines line i ts st).enhancements) :
    e ∈ st.enhancements ∨ ∃ m, e.type = EnhType.knowledge m ∧
      e.has_error = (m == "2" && nextDiscard lines e.end_line e.node_id) := by
  rcases hk : line.knowledgeEnd with _ | p
  · rw [knowledgeEndPhase_none _ _ _ _ _ hk] at he
    exact Or.inl he
  · rcases p with ⟨m, kid⟩
    rcases hm : dictFind st.active_knowledge m with _ | inner
    · rw [knowledgeEndPhase_noMethod _ _ _ _ _ _ _ hk hm] at he
      exact Or.inl he
    · rcases hkid : dictFind inner kid with _ | knowledge
      · rw [knowledgeEndPhase_notOpen _ _ _ _ _ _ _ _ hk hm hkid] at he
        exact Or.inl he
      · rw [knowledgeEndPhase_close _ _ _ _ _ _ _ _ _ hk hm hkid] at he
        simp only [List.mem_append, List.mem_singleton] at he
        rcases he with he | he
        · exact Or.inl he
        · subst he
          refine Or.inr ⟨m, rfl, ?_⟩
          by_cases hm2 : m = "2" <;>
            simp [_create_enhancement_record, hm2]

theorem llmEndPhase_enh_mem (line : Line) (i : Nat) (ts : ℚ) (st : PState)
    (e : Enh) (he : e ∈ (llmEndPhase line i ts st).enhancements) :
    e ∈ st.enhancements ∨ e.type = EnhType.llmCall ∨
      e.type = EnhType.toolComplete := by
  rcases hl : line.llmEnd with _ | lid
  · rw [llmEndPhase_none _ _ _ _ hl] at he
    exact Or.inl he
  · rcases ho : dictFind st.active_llm_calls lid with _ | llm_call
    · rw [llmEndPhase_notOpen _ _ _ _ _ hl ho] at he
      exact Or.inl he
    · rcases htid : llm_call.tool_id with _ | tid
      · rw [llmEndPhase_close_noLink _ _ _ _ _ _ hl ho htid] at he
        simp only [List.mem_append, List.mem_singleton] at he
        rcases he with he | he
        · exact Or.inl he
        · subst he
          exact Or.inr (Or.inl rfl)
      · rcases hmap : dictFind st.finished_tool_map tid with _ | tool_record
        · rw [llmEndPhase_close_linkMissing _ _ _ _ _ _ _ hl ho htid hmap] at he
          simp only [List.mem_append, List.mem_singleton] at he
          rcases he with he | he
          · exact Or.inl he
          · subst he
            exact Or.inr (Or.inl rfl)
        · rw [llmEndPhase_close_complete _ _ _ _ _ _ _ _ hl ho htid hmap] at he
          simp only [List.mem_append, List.mem_singleton] at he
          rcases he with (he | he) | he
          · exact Or.inl he
          · subst he
            exact Or.inr (Or.inl rfl)
          · subst he
            exact Or.inr (Or.inr rfl)

theorem processLine_enh_mem (lines : List Line) (i : Nat) (st : PState)
    (e : Enh) (he : e ∈ (processLine lines i st).enhancements) :
    e ∈ st.enhancements ∨ e.type = EnhType.toolSkipped ∨
      e.type = EnhType.toolFailed ∨ e.type = EnhType.toolFinished ∨
      (∃ m, e.type = EnhType.knowledge m ∧
        e.has_error = (m == "2" && nextDiscard lines e.end_line e.node_id)) ∨
      e.type = EnhType.llmCall ∨ e.type = EnhType.toolComplete := by
  rcases hg : lines[i]? with _ | line
  · rw [processLine_outOfRange lines i st hg] at he
    exact Or.inl he
  · rcases hts : line.timestamp with _ | ts
    · rw [processLine_noTimestamp lines i st line hg hts] at he
      exact Or.inl he
    · rw [processLine_run lines i st line ts hg hts] at he
      rcases llmEndPhase_enh_mem _ _ _ _ _ he with he1 | he1 | he1
      · rw [(llmStartPhase_other lines line i ts _).1] at he1
        rcases knowledgeEndPhase_enh_mem _ _ _ _ _ _ he1 with he2 | he2
        · rw [(knowledgeStartPhase_other line i ts _).1] at he2
          rcases toolEndPhase_enh_mem _ _ _ _ _ he2 with he3 | he3 | he3 | he3
          · rw [(noToolsPhase_other line _).1, (toolStartPhase_other line i ts st).1] at he3
            exact Or.inl he3
          · exact Or.inr (Or.inl he3)
          · exact Or.inr (Or.inr (Or.inl he3))
          · exact Or.inr (Or.inr (Or.inr (Or.inl he3)))
        · exact Or.inr (Or.inr (Or.inr (Or.inr (Or.inl he2))))
      · exact Or.inr (Or.inr (Or.inr (Or.inr (Or.inr (Or.inl he1)))))
      · exact Or.inr (Or.inr (Or.inr (Or.inr (Or.inr (Or.inr he1)))))

/-- Claim C5: a knowledge record of method `m` carries `has_error = true`
exactly when `m` is "2" and the immediately next physical line carries a
discard signal for its identifier: a knowledge-method-2 interval closed by a
normal "ended" marker is flagged failed iff the next line discards it, and a
knowledge-method-1 record is never flagged failed regardless of any discard
line. -/
theorem km2_discard_flag (lines : List Line) (e : Enh)
    (he : e ∈ extract_enhancement_times lines) (m : String)
    (ht : e.type = EnhType.knowledge m) :
    (m ≠ "2" → e.has_error = false) ∧
    (m = "2" → (e.has_error = true ↔
      nextDiscard lines e.end_line e.node_id = true)) := by
  have key : e.has_error = (m == "2" && nextDiscard lines e.end_line e.node_id) := by
    have hinv : ∀ x ∈ (runLines lines).enhancements, ∀ m', x.type = EnhType.knowledge m' →
        x.has_error = (m' == "2" && nextDiscard lines x.end_line x.node_id) := by
      rw [runLines_eq_runUpTo]
      refine runUpTo_invariant lines
        (fun st => ∀ x ∈ st.enhancements, ∀ m', x.type = EnhType.knowledge m' →
          x.has_error = (m' == "2" && nextDiscard lines x.end_line x.node_id))
        (by intro x hx; cases hx) ?_ lines.length
      intro i st hP x hx m' htx
      rcases processLine_enh_mem lines i st x hx with h | h | h | h | h | h | h
      · exact hP x h m' htx
      · rw [htx] at h; cases h
      · rw [htx] at h; cases h
      · rw [htx] at h; cases h
      · rcases h with ⟨m'', hty, herr⟩
        rw [htx] at hty
        cases hty
        exact herr
      · rw [htx] at h; cases h
      · rw [htx] at h; cases h
    unfold extract_enhancement_times at he
    simp only [List.mem_append, List.mem_map] at he
    rcases he with he | ⟨p, _, hpe⟩
    · exact hinv e he m ht
    · rw [← hpe] at ht
      cases ht
  constructor
  · intro hm
    rw [key]
    have : (m == "2") = false := beq_eq_false_iff_ne.mpr hm
    rw [this, Bool.false_and]
  · intro hm
    subst hm
    rw [key]
    simp

/-- Witness for claim C5 on concrete three-line logs: the method-2 record of
the discard log is flagged failed and the next line does discard it; the
method-1 record of the analogous log is not flagged failed. -/
theorem km2_discard_flag_witness :
    (_create_enhancement_record (EnhType.knowledge "2") 0 3 1 2 uuidC true none
        ∈ extract_enhancement_times kmDiscardLines) ∧
    ((_create_enhancement_record (EnhType.knowledge "2") 0 3 1 2 uuidC true none).has_error = true ↔
      nextDiscard kmDiscardLines 2 uuidC = true) ∧
    (_create_enhancement_record (EnhType.knowledge "1") 0 3 1 2 uuidC false none
        ∈ extract_enhancement_times km1DiscardLines) ∧
    (_create_enhancement_record (EnhType.knowledge "1") 0 3 1 2 uuidC false none).has_error = false := by
  have hmem2 : _create_enhancement_record (EnhType.knowledge "2") 0 3 1 2 uuidC true none
      ∈ extract_enhancement_times kmDiscardLines := by
    rw [show extract_enhancement_times kmDiscardLines =
      [_create_enhancement_record (EnhType.knowledge "2") 0 3 1 2 uuidC true none] from rfl]
    exact List.mem_singleton_self _
  have hmem1 : _create_enhancement_record (EnhType.knowledge "1") 0 3 1 2 uuidC false none
      ∈ extract_enhancement_times km1DiscardLines := by
    rw [show extract_enhancement_times km1DiscardLines =
      [_create_enhancement_record (EnhType.knowledge "1") 0 3 1 2 uuidC false none] from rfl]
    exact List.mem_singleton_self _
  refine ⟨hmem2, ?_, hmem1, ?_⟩
  · exact (km2_discard_flag kmDiscardLines _ hmem2 "2" rfl).2 rfl
  · exact (km2_discard_flag km1DiscardLines _ hmem1 "1" rfl).1 (by decide)

/-- Counterexample for claim C2 as stated: a knowledge interval and an
LLM-call interval left open at end of stream yield no record at all — the
extraction output is empty even though an interval is still open — instead of
the synthetic skipped record the claim promises. -/
theorem open_nontool_intervals_dropped_counterexample :
    extract_enhancement_times kmOpenLines = [] ∧
    (runLines kmOpenLines).active_knowledge ≠ [] ∧
    extract_enhancement_times llmOpenLines = [] ∧
    (runLines llmOpenLines).active_llm_calls ≠ [] := by
  refine ⟨rfl, by decide, rfl, by decide⟩

/-- Claim C2 (amended): only tool intervals still open when the line stream
is exhausted become synthetic skipped records — each with duration 0 and
start-line = end-line — while open knowledge and LLM-call intervals are
dropped without a record: the output is exactly the loop's records followed
by one skip record per open tool entry. -/
theorem eof_skips_only_tools :
    (∀ lines : List Line, extract_enhancement_times lines =
      (runLines lines).enhancements ++
        (runLines lines).active_tools.map (fun p => eofSkipRecord p.1 p.2)) ∧
    (∀ lines : List Line, (extract_enhancement_times lines).length =
      (runLines lines).enhancements.length + (runLines lines).active_tools.length) ∧
    (∀ (tid : String) (tool : OpenTool),
      (eofSkipRecord tid tool).type = EnhType.toolSkipped ∧
      (eofSkipRecord tid tool).duration_seconds = 0 ∧
      (eofSkipRecord tid tool).start_line = tool.line_num ∧
      (eofSkipRecord tid tool).end_line = tool.line_num ∧
      (eofSkipRecord tid tool).node_id = tid) := by
  refine ⟨fun lines => rfl, fun lines => ?_, fun tid tool => ⟨rfl, rfl, rfl, rfl, rfl⟩⟩
  simp [extract_enhancement_times]

theorem classifyStep_all (c : Classified) (e : Enh) :
    (classifyStep c e).all = c.all ++ (if inAllBucket e then [e] else []) ∧
    (classifyStep c e).all_success =
      c.all_success ++ (if inAllSuccessBucket e then [e] else []) := by
  cases hty : e.type with
  | toolFinished => simp [classifyStep, inAllBucket, inAllSuccessBucket, hty]
  | toolFailed => simp [classifyStep, inAllBucket, inAllSuccessBucket, hty]
  | toolSkipped => simp [classifyStep, inAllBucket, inAllSuccessBucket, hty]
  | toolComplete => simp [classifyStep, inAllBucket, inAllSuccessBucket, hty]
  | llmCall => simp [classifyStep, inAllBucket, inAllSuccessBucket, hty]
  | knowledge m =>
    by_cases h1 : m = "1"
    · cases he : e.has_error <;>
        simp [classifyStep, inAllBucket, inAllSuccessBucket, hty, h1, he]
    · by_cases h2 : m = "2"
      · cases he : e.has_error <;>
          simp [classifyStep, inAllBucket, inAllSuccessBucket, hty, h1, h2, he]
      · simp [classifyStep, inAllBucket, inAllSuccessBucket, hty, h1, h2]

theorem classifyFold_all (l : List Enh) : ∀ c : Classified,
    (l.foldl classifyStep c).all = c.all ++ l.filter inAllBucket ∧
    (l.foldl classifyStep c).all_success =
      c.all_success ++ l.filter inAllSuccessBucket := by
  induction l with
  | nil => intro c; simp
  | cons e tl ih =>
    intro c
    obtain ⟨ih1, ih2⟩ := ih (classifyStep c e)
    obtain ⟨s1, s2⟩ := classifyStep_all c e
    simp only [List.foldl_cons, List.filter_cons]
    constructor
    · rw [ih1, s1]
      by_cases hb : inAllBucket e <;> simp [hb]
    · rw [ih2, s2]
      by_cases hb : inAllSuccessBucket e <;> simp [hb]

/-- Counterexample for claim C8 as stated: the finished-only log emits one
EventRecord (a `tool_enhancement_finished` record), yet the classifier's
"all records" bucket for that output is empty — an emitted record is not a
member of the "all" bucket. -/
theorem classify_all_misses_finished_counterexample :
    (extract_enhancement_times finishedOnlyLines).length = 1 ∧
    (_classify_enhancements (extract_enhancement_times finishedOnlyLines)).all = [] ∧
    (_classify_enhancements (extract_enhancement_times finishedOnlyLines)).tool_finished =
      extract_enhancement_times finishedOnlyLines := by
  exact ⟨rfl, rfl, rfl⟩

/-- Claim C8 (amended): `_classify_enhancements` routes into the "all
records" bucket exactly the failed-tool, skipped-tool, composite tool and
knowledge records — finished-tool and LLM-call records are left out (they are
represented in the composite bucket instead) — and into "all successful
records" exactly the composite tool records and the knowledge records not
flagged failed. -/
theorem classify_all_buckets (enhancements : List Enh) :
    (_classify_enhancements enhancements).all = enhancements.filter inAllBucket ∧
    (_classify_enhancements enhancements).all_success =
      enhancements.filter inAllSuccessBucket := by
  obtain ⟨h1, h2⟩ := classifyFold_all enhancements emptyClassified
  exact ⟨by simpa [_classify_enhancements, emptyClassified] using h1,
    by simpa [_classify_enhancements, emptyClassified] using h2⟩

theorem statStep_total (s : StatKey → StatEntry) (e : Enh) (k : StatKey) :
    (statStep s e k).total_time = (s k).total_time +
      (if timedInBucket k e then e.duration_seconds else 0) := by
  cases hty : e.type with
  | toolFinished =>
    cases k <;> simp [statStep, hty, updateStat, _update_stat_entry, timedInBucket]
  | toolFailed =>
    cases k <;> simp [statStep, hty, updateStat, _update_stat_entry, timedInBucket]
  | toolSkipped =>
    cases k <;> simp [statStep, hty, updateStat, _update_stat_entry, timedInBucket]
  | toolComplete =>
    cases k <;> simp [statStep, hty, updateStat, _update_stat_entry, timedInBucket]
  | llmCall =>
    cases k <;> simp [statStep, hty, updateStat, _update_stat_entry, timedInBucket]
  | knowledge m =>
    by_cases h1 : m.startsWith "1"
    · cases k <;>
        simp [statStep, hty, updateStat, _update_stat_entry, timedInBucket, h1]
    · by_cases h2 : m.startsWith "2"
      · cases k <;>
          simp [statStep, hty, updateStat, _update_stat_entry, timedInBucket, h1, h2]
      · cases k <;>
          simp [statStep, hty, updateStat, _update_stat_entry, timedInBucket, h1, h2]

theorem statStep_avg (s : StatKey → StatEntry) (e : Enh) (k : StatKey) :
    (statStep s e k).avg_time = (s k).avg_time := by
  cases hty : e.type with
  | toolFinished => cases k <;> simp [statStep, hty, updateStat, _update_stat_entry]
  | toolFailed => cases k <;> simp [statStep, hty, updateStat, _update_stat_entry]
  | toolSkipped => cases k <;> simp [statStep, hty, updateStat, _update_stat_entry]
  | toolComplete => cases k <;> simp [statStep, hty, updateStat, _update_stat_entry]
  | llmCall => cases k <;> simp [statStep, hty, updateStat, _update_stat_entry]
  | knowledge m =>
    by_cases h1 : m.startsWith "1"
    · cases k <;> simp [statStep, hty, updateStat, _update_stat_entry, h1]
    · by_cases h2 : m.startsWith "2"
      · cases k <;> simp [statStep, hty, updateStat, _update_stat_entry, h1, h2]
      · cases k <;> simp [statStep, hty, updateStat, _update_stat_entry, h1, h2]

theorem statStep_skipped_timeFields (s : StatKey → StatEntry) (e : Enh) :
    (statStep s e StatKey.toolSkipped).max_time = (s StatKey.toolSkipped).max_time ∧
    (statStep s e StatKey.toolSkipped).min_time = (s StatKey.toolSkipped).min_time := by
  cases hty : e.type with
  | toolFinished => simp [statStep, hty, updateStat, _update_stat_entry]
  | toolFailed => simp [statStep, hty, updateStat, _update_stat_entry]
  | toolSkipped => simp [statStep, hty, updateStat, _update_stat_entry]
  | toolComplete => simp [statStep, hty, updateStat, _update_stat_entry]
  | llmCall => simp [statStep, hty, updateStat, _update_stat_entry]
  | knowledge m =>
    by_cases h1 : m.startsWith "1"
    · simp [statStep, hty, updateStat, _update_stat_entry, h1]
    · by_cases h2 : m.startsWith "2"
      · simp [statStep, hty, updateStat, _update_stat_entry, h1, h2]
      · simp [statStep, hty, updateStat, _update_stat_entry, h1, h2]

theorem statFold_total (l : List Enh) : ∀ (s : StatKey → StatEntry) (k : StatKey),
    ((l.foldl statStep s) k).total_time = (s k).total_time +
      ((l.filter (timedInBucket k)).map (fun e => e.duration_seconds)).sum := by
  induction l with
  | nil => intro s k; simp
  | cons e tl ih =>
    intro s k
    simp only [List.foldl_cons, List.filter_cons]
    rw [ih (statStep s e) k, statStep_total s e k]
    by_cases hb : timedInBucket k e
    · simp only [hb, if_true, List.map_cons, List.sum_cons]
      ring
    · simp [hb]

theorem statFold_avg (l : List Enh) : ∀ (s : StatKey → StatEntry) (k : StatKey),
    ((l.foldl statStep s) k).avg_time = (s k).avg_time := by
  induction l with
  | nil => intro s k; rfl
  | cons e tl ih =>
    intro s k
    simp only [List.foldl_cons]
    rw [ih (statStep s e) k, statStep_avg s e k]

theorem statFold_skipped_timeFields (l : List Enh) : ∀ (s : StatKey → StatEntry),
    ((l.foldl statStep s) StatKey.toolSkipped).max_time = (s StatKey.toolSkipped).max_time ∧
    ((l.foldl statStep s) StatKey.toolSkipped).min_time = (s StatKey.toolSkipped).min_time := by
  induction l with
  | nil => intro s; exact ⟨rfl, rfl⟩
  | cons e tl ih =>
    intro s
    simp only [List.foldl_cons]
    obtain ⟨ih1, ih2⟩ := ih (statStep s e)
    obtain ⟨s1, s2⟩ := statStep_skipped_timeFields s e
    exact ⟨ih1.trans s1, ih2.trans s2⟩

theorem avgFix_keeps_counts_total (e : StatEntry) :
    (avgFix e).count = e.count ∧ (avgFix e).failed_count = e.failed_count ∧
    (avgFix e).total_time = e.total_time ∧ (avgFix e).max_time = e.max_time := by
  unfold avgFix
  split <;> exact ⟨rfl, rfl, rfl, rfl⟩

theorem avgFix_avg (e : StatEntry) :
    (avgFix e).avg_time = (if 0 < e.count + e.failed_count
      then e.total_time / ((e.count : ℚ) + (e.failed_count : ℚ))
      else e.avg_time) := by
  unfold avgFix
  split <;> rfl

theorem avgFix_min (e : StatEntry) :
    (avgFix e).min_time = (if 0 < e.count + e.failed_count
      then (match e.min_time with | none => some 0 | some m => some m)
      else e.min_time) := by
  unfold avgFix
  split <;> rfl

/-- Claim C7: for every bucket of `calculate_statistics`, total-time is the
sum of the durations folded into that bucket; average-time is total-time
divided by (count + failed-count) when that sum of counters is positive and 0
otherwise; and skip records feed no time anywhere — the skipped bucket's
total and max stay 0, and its min is only ever the fixed-up 0. -/
theorem calculate_statistics_bucket_laws (enhancements : List Enh) (k : StatKey) :
    (calculate_statistics enhancements k).total_time =
      ((enhancements.filter (timedInBucket k)).map (fun e => e.duration_seconds)).sum ∧
    (calculate_statistics enhancements k).avg_time =
      (if 0 < (calculate_statistics enhancements k).count +
          (calculate_statistics enhancements k).failed_count
       then (calculate_statistics enhancements k).total_time /
         (((calculate_statistics enhancements k).count : ℚ) +
           ((calculate_statistics enhancements k).failed_count : ℚ))
       else 0) ∧
    (∀ (k' : StatKey) (e : Enh), e.type = EnhType.toolSkipped →
      timedInBucket k' e = false) ∧
    (calculate_statistics enhancements StatKey.toolSkipped).total_time = 0 ∧
    (calculate_statistics enhancements StatKey.toolSkipped).max_time = 0 ∧
    (calculate_statistics enhancements StatKey.toolSkipped).min_time =
      (if 0 < (calculate_statistics enhancements StatKey.toolSkipped).count +
          (calculate_statistics enhancements StatKey.toolSkipped).failed_count
       then some 0 else none) := by
  have base : ∀ k' : StatKey,
      calculate_statistics enhancements k' =
        avgFix (enhancements.foldl statStep (fun _ => _create_default_stat_entry) k') :=
    fun k' => rfl
  have hfoldavg : ∀ k' : StatKey,
      (enhancements.foldl statStep (fun _ => _create_default_stat_entry) k').avg_time = 0 := by
    intro k'
    rw [statFold_avg enhancements (fun _ => _create_default_stat_entry) k']
    rfl
  have hfoldmin :
      (enhancements.foldl statStep (fun _ => _create_default_stat_entry)
        StatKey.toolSkipped).min_time = none :=
    (statFold_skipped_timeFields enhancements (fun _ => _create_default_stat_entry)).2
  have htotal : ∀ k' : StatKey,
      (calculate_statistics enhancements k').total_time =
        ((enhancements.filter (timedInBucket k')).map (fun e => e.duration_seconds)).sum := by
    intro k'
    rw [base k', (avgFix_keeps_counts_total _).2.2.1,
      statFold_total enhancements (fun _ => _create_default_stat_entry) k']
    simp [_create_default_stat_entry]
  have hskipfalse : ∀ (k' : StatKey) (e : Enh), e.type = EnhType.toolSkipped →
      timedInBucket k' e = false := by
    intro k' e hty
    cases k' <;> simp [timedInBucket, hty]
  have hskiptotal :
      (calculate_statistics enhancements StatKey.toolSkipped).total_time = 0 := by
    rw [htotal StatKey.toolSkipped]
    have hnil : enhancements.filter (timedInBucket StatKey.toolSkipped) = [] := by
      rw [List.filter_eq_nil_iff]
      intro a _
      cases hty : a.type <;> simp [timedInBucket, hty]
    rw [hnil]
    rfl
  refine ⟨htotal k, ?_, hskipfalse, hskiptotal, ?_, ?_⟩
  · obtain ⟨hc, hf, ht, _⟩ := avgFix_keeps_counts_total
      (enhancements.foldl statStep (fun _ => _create_default_stat_entry) k)
    rw [base k, avgFix_avg, hc, hf, ht]
    by_cases hpos : 0 <
        (enhancements.foldl statStep (fun _ => _create_default_stat_entry) k).count +
        (enhancements.foldl statStep (fun _ => _create_default_stat_entry) k).failed_count
    · rw [if_pos hpos, if_pos hpos]
    · rw [if_neg hpos, if_neg hpos, hfoldavg k]
  · rw [base StatKey.toolSkipped, (avgFix_keeps_counts_total _).2.2.2,
      (statFold_skipped_timeFields enhancements (fun _ => _create_default_stat_entry)).1]
    rfl
  · obtain ⟨hc, hf, _, _⟩ := avgFix_keeps_counts_total
      (enhancements.foldl statStep (fun _ => _create_default_stat_entry)
        StatKey.toolSkipped)
    rw [base StatKey.toolSkipped, avgFix_min, hc, hf, hfoldmin]

/-- Counterexample for claim C4 as stated: when the same tool identifier
finishes twice, each finish followed by its own linked LLM call, two
tool-complete records are emitted for that identifier — "each tool-finished
identifier is linked to at most one tool-complete record" fails, and a log
containing the quoted pattern does not emit exactly one tool-complete record
for the identifier. -/
theorem tool_complete_linked_twice_counterexample :
    ((extract_enhancement_times doubleEpisodeLines).countP
      (fun e => e.type == EnhType.toolComplete && e.tool_id == some uuidA)) = 2 ∧
    ¬ (((extract_enhancement_times doubleEpisodeLines).countP
      (fun e => e.type == EnhType.toolComplete && e.tool_id == some uuidA)) ≤ 1) := by
  constructor
  · rfl
  · decide

/-- Claim C4 (amended): on a log consisting of one correlation episode — a
tool started line for X, a finished line for X, an LLM-call started line on
the very next physical line, and the LLM-call ended line — exactly one
tool-complete record is emitted for X, with duration equal to the tool
duration plus the LLM-call duration and both component durations kept on the
record.  (The at-most-one guarantee is per finished record, not per
identifier: an identifier that is restarted and finished again can be linked
to a further tool-complete record.) -/
theorem tool_complete_scenario (t0 t1 t2 t3 : ℚ) :
    extract_enhancement_times (llmLinkScenario t0 t1 t2 t3) =
      [_create_enhancement_record EnhType.toolFinished t0 t1 1 2 uuidA false none,
       _create_enhancement_record EnhType.llmCall t2 t3 3 4 uuidB false (some uuidA),
       { type := EnhType.toolComplete, start_time := t0, end_time := t3,
         duration_seconds := (t1 - t0) + (t3 - t2), start_line := 1, end_line := 4,
         node_id := uuidA, has_error := false, tool_id := some uuidA,
         llm_id := some uuidB, tool_duration := some (t1 - t0),
         llm_duration := some (t3 - t2) }] ∧
    (extract_enhancement_times (llmLinkScenario t0 t1 t2 t3)).filter
        (fun e => e.type == EnhType.toolComplete) =
      [{ type := EnhType.toolComplete, start_time := t0, end_time := t3,
         duration_seconds := (t1 - t0) + (t3 - t2), start_line := 1, end_line := 4,
         node_id := uuidA, has_error := false, tool_id := some uuidA,
         llm_id := some uuidB, tool_duration := some (t1 - t0),
         llm_duration := some (t3 - t2) }] := by
  constructor
  · rfl
  · rfl

/-- Counterexample for claim C3 as stated: an identifier that is started,
finished, started again and finished again yields two EventRecords of the
tool category — it closes twice for the same category. -/
theorem identifier_closes_twice_counterexample :
    ((extract_enhancement_times doubleCloseLines).countP
      (fun e => (e.type == EnhType.toolFinished || e.type == EnhType.toolFailed ||
        e.type == EnhType.toolSkipped) && e.node_id == uuidA)) = 2 ∧
    ¬ (((extract_enhancement_times doubleCloseLines).countP
      (fun e => (e.type == EnhType.toolFinished || e.type == EnhType.toolFailed ||
        e.type == EnhType.toolSkipped) && e.node_id == uuidA)) ≤ 1) := by
  constructor
  · rfl
  · decide

theorem toolStartPhase_ok (line : Line) (i : Nat) (ts : ℚ) (st : PState)
    (h : StateOK st) : StateOK (toolStartPhase line i ts st) := by
  obtain ⟨h1, h2, h3⟩ := h
  rcases hs : line.toolStart with _ | tid
  · rw [toolStartPhase_none _ _ _ _ hs]
    exact ⟨h1, h2, h3⟩
  · rw [toolStartPhase_some _ _ _ _ _ hs]
    exact ⟨dictInsert_nodup _ _ _ h1, h2, h3⟩

theorem noToolsPhase_ok (line : Line) (st : PState) (h : StateOK st) :
    StateOK (noToolsPhase line st) := by
  obtain ⟨h1, h2, h3⟩ := h
  rcases hs : line.noTools with _ | tid
  · rw [noToolsPhase_none _ _ hs]
    exact ⟨h1, h2, h3⟩
  · rw [noToolsPhase_some _ _ _ hs]
    exact ⟨h1, h2, h3⟩

theorem toolEndPhase_ok (line : Line) (i : Nat) (ts : ℚ) (st : PState)
    (h : StateOK st) : StateOK (toolEndPhase line i ts st) := by
  obtain ⟨h1, h2, h3⟩ := h
  rcases hf : line.toolFinished with _ | tid
  · rcases herr : line.toolError with _ | tid
    · rw [toolEndPhase_noMatch _ _ _ _ hf herr]
      exact ⟨h1, h2, h3⟩
    · rcases ho : dictFind st.active_tools tid with _ | tool
      · rw [toolEndPhase_error_notOpen _ _ _ _ _ hf herr ho]
        exact ⟨h1, h2, h3⟩
      · rw [toolEndPhase_error_open _ _ _ _ _ _ hf herr ho]
        exact ⟨dictErase_nodup _ _ h1, h2, h3⟩
  · rcases ho : dictFind st.active_tools tid with _ | tool
    · rw [toolEndPhase_finished_notOpen _ _ _ _ _ hf ho]
      exact ⟨h1, h2, h3⟩
    · by_cases hsk : tid ∈ st.tool_skipped_ids
      · rw [toolEndPhase_finished_skipped _ _ _ _ _ _ hf hsk ho]
        exact ⟨dictErase_nodup _ _ h1, h2, h3⟩
      · rw [toolEndPhase_finished_ok _ _ _ _ _ _ hf hsk ho]
        exact ⟨dictErase_nodup _ _ h1, h2, h3⟩

theorem knowledgeStartPhase_ok (line : Line) (i : Nat) (ts : ℚ) (st : PState)
    (h : StateOK st) : StateOK (knowledgeStartPhase line i ts st) := by
  obtain ⟨h1, h2, h3⟩ := h
  rcases hs : line.knowledgeStart with _ | p
  · rw [knowledgeStartPhase_none _ _ _ _ hs]
    exact ⟨h1, h2, h3⟩
  · rcases p with ⟨m, kid⟩
    rw [knowledgeStartPhase_some _ _ _ _ _ _ hs]
    refine ⟨h1, h2, ?_⟩
    intro m' inner' hfind
    by_cases hm : m' = m
    · subst hm
      rw [dictFind_insert_self] at hfind
      cases hfind
      refine dictInsert_nodup _ _ _ ?_
      rcases hfo : dictFind st.active_knowledge m' with _ | oldinner
      · simp [hfo, DictNodup]
      · simpa [hfo] using h3 m' oldinner hfo
    · rw [dictFind_insert_ne _ _ _ _ hm] at hfind
      exact h3 m' inner' hfind

theorem knowledgeEndPhase_ok (lines : List Line) (line : Line) (i : Nat)
    (ts : ℚ) (st : PState) (h : StateOK st) :
    StateOK (knowledgeEndPhase lines line i ts st) := by
  obtain ⟨h1, h2, h3⟩ := h
  rcases hk : line.knowledgeEnd with _ | p
  · rw [knowledgeEndPhase_none _ _ _ _ _ hk]
    exact ⟨h1, h2, h3⟩
  · rcases p with ⟨m, kid⟩
    rcases hm : dictFind st.active_knowledge m with _ | inner
    · rw [knowledgeEndPhase_noMethod _ _ _ _ _ _ _ hk hm]
      exact ⟨h1, h2, h3⟩
    · rcases hkid : dictFind inner kid with _ | knowledge
      · rw [knowledgeEndPhase_notOpen _ _ _ _ _ _ _ _ hk hm hkid]
        exact ⟨h1, h2, h3⟩
      · rw [knowledgeEndPhase_close _ _ _ _ _ _ _ _ _ hk hm hkid]
        refine ⟨h1, h2, ?_⟩
        intro m' inner' hfind
        by_cases hmm : m' = m
        · subst hmm
          rw [dictFind_insert_self] at hfind
          cases hfind
          exact dictErase_nodup _ _ (h3 m' inner hm)
        · rw [dictFind_insert_ne _ _ _ _ hmm] at hfind
          exact h3 m' inner' hfind

theorem llmStartPhase_ok (lines : List Line) (line : Line) (i : Nat) (ts : ℚ)
    (st : PState) (h : StateOK st) : StateOK (llmStartPhase lines line i ts st) := by
  obtain ⟨h1, h2, h3⟩ := h
  rcases hs : line.llmStart with _ | lid
  · rw [llmStartPhase_none _ _ _ _ _ hs]
    exact ⟨h1, h2, h3⟩
  · rcases ho : dictFind st.active_llm_calls lid with _ | entry
    · rw [llmStartPhase_some_new _ _ _ _ _ _ hs ho]
      exact ⟨h1, dictInsert_nodup _ _ _ h2, h3⟩
    · rw [llmStartPhase_some_rearm _ _ _ _ _ _ _ hs ho]
      exact ⟨h1, dictInsert_nodup _ _ _ h2, h3⟩

theorem llmEndPhase_ok (line : Line) (i : Nat) (ts : ℚ) (st : PState)
    (h : StateOK st) : StateOK (llmEndPhase line i ts st) := by
  obtain ⟨h1, h2, h3⟩ := h
  rcases hl : line.llmEnd with _ | lid
  · rw [llmEndPhase_none _ _ _ _ hl]
    exact ⟨h1, h2, h3⟩
  · rcases ho : dictFind st.active_llm_calls lid with _ | llm_call
    · rw [llmEndPhase_notOpen _ _ _ _ _ hl ho]
      exact ⟨h1, h2, h3⟩
    · rcases htid : llm_call.tool_id with _ | tid
      · rw [llmEndPhase_close_noLink _ _ _ _ _ _ hl ho htid]
        exact ⟨h1, dictErase_nodup _ _ h2, h3⟩
      · rcases hmap : dictFind st.finished_tool_map tid with _ | tool_record
        · rw [llmEndPhase_close_linkMissing _ _ _ _ _ _ _ hl ho htid hmap]
          exact ⟨h1, dictErase_nodup _ _ h2, h3⟩
        · rw [llmEndPhase_close_complete _ _ _ _ _ _ _ _ hl ho htid hmap]
          exact ⟨h1, dictErase_nodup _ _ h2, h3⟩

theorem processLine_ok (lines : List Line) (i : Nat) (st : PState)
    (h : StateOK st) : StateOK (processLine lines i st) := by
  rcases hg : lines[i]? with _ | line
  · rw [processLine_outOfRange lines i st hg]
    exact h
  · rcases hts : line.timestamp with _ | ts
    · rw [processLine_noTimestamp lines i st line hg hts]
      exact h
    · rw [processLine_run lines i st line ts hg hts]
      exact llmEndPhase_ok _ _ _ _
        (llmStartPhase_ok _ _ _ _ _
          (knowledgeEndPhase_ok _ _ _ _ _
            (knowledgeStartPhase_ok _ _ _ _
              (toolEndPhase_ok _ _ _ _
                (noToolsPhase_ok _ _
                  (toolStartPhase_ok _ _ _ _ h))))))

theorem runUpTo_ok (lines : List Line) (k : Nat) : StateOK (runUpTo lines k) := by
  refine runUpTo_invariant lines StateOK ?_ (fun i st h => processLine_ok lines i st h) k
  refine ⟨List.nodup_nil, List.nodup_nil, ?_⟩
  intro m inner hfind
  cases hfind

theorem dict_countP_key {α : Type} (d : List (String × α)) (X : String)
    (h : DictNodup d) :
    d.countP (fun p => p.1 == X) = (dictFind d X).isSome.toNat := by
  induction d with
  | nil => rfl
  | cons p rest ih =>
    simp only [DictNodup, List.map_cons, List.nodup_cons] at h
    by_cases hp : p.1 = X
    · have hfind : dictFind (p :: rest) X = some p.2 := by
        simp [dictFind, hp]
      have hrest : rest.countP (fun p => p.1 == X) = 0 := by
        rw [List.countP_eq_zero]
        intro q hq
        simp only [beq_iff_eq]
        intro hqx
        exact h.1 (hp ▸ hqx ▸ List.mem_map_of_mem Prod.fst hq)
      rw [List.countP_cons, hfind, hrest]
      simp [hp]
    · have hfind : dictFind (p :: rest) X = dictFind rest X := by
        simp [dictFind, hp]
      rw [List.countP_cons, hfind, ih h.2]
      simp [hp]

theorem toolEndPhase_other_counts (line : Line) (i : Nat) (ts : ℚ)
    (st : PState) (m X : String) :
    kmRecCount m X (toolEndPhase line i ts st).enhancements =
      kmRecCount m X st.enhancements ∧
    llmRecCount X (toolEndPhase line i ts st).enhancements =
      llmRecCount X st.enhancements := by
  rcases hf : line.toolFinished with _ | tid
  · rcases herr : line.toolError with _ | tid
    · rw [toolEndPhase_noMatch _ _ _ _ hf herr]
      exact ⟨rfl, rfl⟩
    · rcases ho : dictFind st.active_tools tid with _ | tool
      · rw [toolEndPhase_error_notOpen _ _ _ _ _ hf herr ho]
        exact ⟨rfl, rfl⟩
      · rw [toolEndPhase_error_open _ _ _ _ _ _ hf herr ho]
        constructor <;>
          simp [kmRecCount, llmRecCount, List.countP_append,
            _create_enhancement_record]
  · rcases ho : dictFind st.active_tools tid with _ | tool
    · rw [toolEndPhase_finished_notOpen _ _ _ _ _ hf ho]
      exact ⟨rfl, rfl⟩
    · by_cases hsk : tid ∈ st.tool_skipped_ids
      · rw [toolEndPhase_finished_skipped _ _ _ _ _ _ hf hsk ho]
        constructor <;>
          simp [kmRecCount, llmRecCount, List.countP_append,
            _create_enhancement_record]
      · rw [toolEndPhase_finished_ok _ _ _ _ _ _ hf hsk ho]
        constructor <;>
          simp [kmRecCount, llmRecCount, List.countP_append,
            _create_enhancement_record]

theorem knowledgeEndPhase_other_counts (lines : List Line) (line : Line)
    (i : Nat) (ts : ℚ) (st : PState) (X : String) :
    toolRecCount X (knowledgeEndPhase lines line i ts st).enhancements =
      toolRecCount X st.enhancements ∧
    llmRecCount X (knowledgeEndPhase lines line i ts st).enhancements =
      llmRecCount X st.enhancements := by
  rcases hk : line.knowledgeEnd with _ | p
  · rw [knowledgeEndPhase_none _ _ _ _ _ hk]
    exact ⟨rfl, rfl⟩
  · rcases p with ⟨m', kid⟩
    rcases hm : dictFind st.active_knowledge m' with _ | inner
    · rw [knowledgeEndPhase_noMethod _ _ _ _ _ _ _ hk hm]
      exact ⟨rfl, rfl⟩
    · rcases hkid : dictFind inner kid with _ | knowledge
      · rw [knowledgeEndPhase_notOpen _ _ _ _ _ _ _ _ hk hm hkid]
        exact ⟨rfl, rfl⟩
      · rw [knowledgeEndPhase_close _ _ _ _ _ _ _ _ _ hk hm hkid]
        constructor <;>
          simp [toolRecCount, llmRecCount, isToolRecord, List.countP_append,
            _create_enhancement_record]

theorem llmEndPhase_other_counts (line : Line) (i : Nat) (ts : ℚ)
    (st : PState) (m X : String) :
    toolRecCount X (llmEndPhase line i ts st).enhancements =
      toolRecCount X st.enhancements ∧
    kmRecCount m X (llmEndPhase line i ts st).enhancements =
      kmRecCount m X st.enhancements := by
  rcases hl : line.llmEnd with _ | lid
  · rw [llmEndPhase_none _ _ _ _ hl]
    exact ⟨rfl, rfl⟩
  · rcases ho : dictFind st.active_llm_calls lid with _ | llm_call
    · rw [llmEndPhase_notOpen _ _ _ _ _ hl ho]
      exact ⟨rfl, rfl⟩
    · rcases htid : llm_call.tool_id with _ | tid
      · rw [llmEndPhase_close_noLink _ _ _ _ _ _ hl ho htid]
        constructor <;>
          simp [toolRecCount, kmRecCount, isToolRecord, List.countP_append,
            _create_enhancement_record]
      · rcases hmap : dictFind st.finished_tool_map tid with _ | tool_record
        · rw [llmEndPhase_close_linkMissing _ _ _ _ _ _ _ hl ho htid hmap]
          constructor <;>
            simp [toolRecCount, kmRecCount, isToolRecord, List.countP_append,
              _create_enhancement_record]
        · rw [llmEndPhase_close_complete _ _ _ _ _ _ _ _ hl ho htid hmap]
          constructor <;>
            simp [toolRecCount, kmRecCount, isToolRecord, List.countP_append,
              _create_enhancement_record]

theorem processLine_tool_bound (lines : List Line) (X : String) (i : Nat)
    (st : PState) (hok : StateOK st) :
    toolRecCount X (processLine lines i st).enhancements +
      toolOpenInd (processLine lines i st) X ≤
    toolRecCount X st.enhancements + toolOpenInd st X + toolWeight X lines i := by
  rcases hg : lines[i]? with _ | line
  · rw [processLine_outOfRange lines i st hg]
    exact Nat.le_add_right _ _
  · rcases hts : line.timestamp with _ | ts
    · rw [processLine_noTimestamp lines i st line hg hts]
      exact Nat.le_add_right _ _
    · rw [processLine_run lines i st line ts hg hts]
      have hw : toolWeight X lines i = (if line.toolStart == some X then 1 else 0) := by
        simp [toolWeight, hg, hts]
      have hok1 : StateOK (toolStartPhase line i ts st) := toolStartPhase_ok _ _ _ _ hok
      have hok2 : StateOK (noToolsPhase line (toolStartPhase line i ts st)) :=
        noToolsPhase_ok _ _ hok1
      have p1 : toolRecCount X (toolStartPhase line i ts st).enhancements +
          toolOpenInd (toolStartPhase line i ts st) X ≤
          toolRecCount X st.enhancements + toolOpenInd st X +
            (if line.toolStart == some X then 1 else 0) := by
        rcases hsT : line.toolStart with _ | tid
        · rw [toolStartPhase_none _ _ _ _ hsT]
          exact Nat.le_add_right _ _
        · rw [toolStartPhase_some _ _ _ _ _ hsT]
          by_cases htX : tid = X
          · subst htX
            have hfi : dictFind (dictInsert st.active_tools tid ⟨i + 1, ts⟩) tid =
                some ⟨i + 1, ts⟩ := dictFind_insert_self _ _ _
            simp only [toolOpenInd, hfi, Option.isSome_some, Bool.toNat_true]
            simp only [beq_self_eq_true, if_true]
            omega
          · have hfi : dictFind (dictInsert st.active_tools tid ⟨i + 1, ts⟩) X =
                dictFind st.active_tools X :=
              dictFind_insert_ne _ _ _ _ (fun hh => htX hh.symm)
            simp only [toolOpenInd, hfi]
            exact Nat.le_add_right _ _
      have p2 : toolRecCount X (noToolsPhase line (toolStartPhase line i ts st)).enhancements +
          toolOpenInd (noToolsPhase line (toolStartPhase line i ts st)) X =
          toolRecCount X (toolStartPhase line i ts st).enhancements +
            toolOpenInd (toolStartPhase line i ts st) X := by
        obtain ⟨e1, e2, _, _, _, _⟩ := noToolsPhase_other line (toolStartPhase line i ts st)
        rw [toolRecCount, e1, toolOpenInd, e2]
        rfl
      have p3 : ∀ st' : PState, DictNodup st'.active_tools →
          toolRecCount X (toolEndPhase line i ts st').enhancements +
            toolOpenInd (toolEndPhase line i ts st') X ≤
          toolRecCount X st'.enhancements + toolOpenInd st' X := by
        intro st' hnd
        rcases hf : line.toolFinished with _ | tid
        · rcases herr : line.toolError with _ | tid
          · rw [toolEndPhase_noMatch _ _ _ _ hf herr]
          · rcases ho : dictFind st'.active_tools tid with _ | tool
            · rw [toolEndPhase_error_notOpen _ _ _ _ _ hf herr ho]
            · rw [toolEndPhase_error_open _ _ _ _ _ _ hf herr ho]
              by_cases htX : tid = X
              · have hia : dictFind (dictErase st'.active_tools tid) X = none := by
                  rw [← htX]
                  exact dictFind_erase_self _ _ hnd
                have hoX : dictFind st'.active_tools X = some tool := by
                  rw [← htX]
                  exact ho
                have hcount : toolRecCount X (st'.enhancements ++
                    [_create_enhancement_record EnhType.toolFailed tool.start_time ts
                      tool.line_num (i + 1) tid true none]) =
                    toolRecCount X st'.enhancements + 1 := by
                  rw [toolRecCount, List.countP_append]
                  simp [toolRecCount, isToolRecord, _create_enhancement_record, htX]
                simp only [toolOpenInd, hia, hcount, hoX]
                simp
              · have hia : dictFind (dictErase st'.active_tools tid) X =
                    dictFind st'.active_tools X :=
                  dictFind_erase_ne _ _ _ (fun hh => htX hh.symm)
                have hcount : toolRecCount X (st'.enhancements ++
                    [_create_enhancement_record EnhType.toolFailed tool.start_time ts
                      tool.line_num (i + 1) tid true none]) =
                    toolRecCount X st'.enhancements := by
                  rw [toolRecCount, List.countP_append]
                  simp [toolRecCount, isToolRecord, _create_enhancement_record, htX]
                simp only [toolOpenInd, hia, hcount]
                exact le_refl _
        · rcases ho : dictFind st'.active_tools tid with _ | tool
          · rw [toolEndPhase_finished_notOpen _ _ _ _ _ hf ho]
          · have hgen : ∀ rty herrb,
                (rty = EnhType.toolSkipped ∨ rty = EnhType.toolFailed ∨
                  rty = EnhType.toolFinished) →
                toolRecCount X (st'.enhancements ++
                  [_create_enhancement_record rty tool.start_time ts
                    tool.line_num (i + 1) tid herrb none]) +
                  (dictFind (dictErase st'.active_tools tid) X).isSome.toNat ≤
                toolRecCount X st'.enhancements + toolOpenInd st' X := by
              intro rty herrb hrty
              by_cases htX : tid = X
              · have hia : dictFind (dictErase st'.active_tools tid) X = none := by
                  rw [← htX]
                  exact dictFind_erase_self _ _ hnd
                have hoX : dictFind st'.active_tools X = some tool := by
                  rw [← htX]
                  exact ho
                have hcount : toolRecCount X (st'.enhancements ++
                    [_create_enhancement_record rty tool.start_time ts
                      tool.line_num (i + 1) tid herrb none]) =
                    toolRecCount X st'.enhancements + 1 := by
                  rw [toolRecCount, List.countP_append]
                  rcases hrty with h | h | h <;> subst h <;>
                    simp [toolRecCount, isToolRecord, _create_enhancement_record, htX]
                simp only [toolOpenInd, hia, hcount, hoX]
                simp
              · have hia : dictFind (dictErase st'.active_tools tid) X =
                    dictFind st'.active_tools X :=
                  dictFind_erase_ne _ _ _ (fun hh => htX hh.symm)
                have hcount : toolRecCount X (st'.enhancements ++
                    [_create_enhancement_record rty tool.start_time ts
                      tool.line_num (i + 1) tid herrb none]) =
                    toolRecCount X st'.enhancements := by
                  rw [toolRecCount, List.countP_append]
                  rcases hrty with h | h | h <;> subst h <;>
                    simp [toolRecCount, isToolRecord, _create_enhancement_record, htX]
                simp only [toolOpenInd, hia, hcount]
                exact le_refl _
            by_cases hsk : tid ∈ st'.tool_skipped_ids
            · rw [toolEndPhase_finished_skipped _ _ _ _ _ _ hf hsk ho]
              exact hgen EnhType.toolSkipped false (Or.inl rfl)
            · rw [toolEndPhase_finished_ok _ _ _ _ _ _ hf hsk ho]
              exact hgen EnhType.toolFinished false (Or.inr (Or.inr rfl))
      have p4 : ∀ st' : PState,
          toolRecCount X (knowledgeStartPhase line i ts st').enhancements +
            toolOpenInd (knowledgeStartPhase line i ts st') X =
          toolRecCount X st'.enhancements + toolOpenInd st' X := by
        intro st'
        obtain ⟨e1, e2, _, _, _, _⟩ := knowledgeStartPhase_other line i ts st'
        rw [toolRecCount, e1, toolOpenInd, e2]
        rfl
      have p5 : ∀ st' : PState,
          toolRecCount X (knowledgeEndPhase lines line i ts st').enhancements +
            toolOpenInd (knowledgeEndPhase lines line i ts st') X =
          toolRecCount X st'.enhancements + toolOpenInd st' X := by
        intro st'
        obtain ⟨e2, _, _, _, _⟩ := knowledgeEndPhase_other lines line i ts st'
        rw [(knowledgeEndPhase_other_counts lines line i ts st' X).1,
          toolOpenInd, e2]
        rfl
      have p6 : ∀ st' : PState,
          toolRecCount X (llmStartPhase lines line i ts st').enhancements +
            toolOpenInd (llmStartPhase lines line i ts st') X =
          toolRecCount X st'.enhancements + toolOpenInd st' X := by
        intro st'
        obtain ⟨e1, e2, _, _, _⟩ := llmStartPhase_other lines line i ts st'
        rw [toolRecCount, e1, toolOpenInd, e2]
        rfl
      have p7 : ∀ st' : PState,
          toolRecCount X (llmEndPhase line i ts st').enhancements +
            toolOpenInd (llmEndPhase line i ts st') X =
          toolRecCount X st'.enhancements + toolOpenInd st' X := by
        intro st'
        obtain ⟨e2, _, _, _, _⟩ := llmEndPhase_other line i ts st'
        rw [(llmEndPhase_other_counts line i ts st' "" X).1, toolOpenInd, e2]
        rfl
      rw [hw]
      rw [p7, p6, p5, p4]
      have h3 := p3 (noToolsPhase line (toolStartPhase line i ts st)) hok2.1
      omega

theorem toolStartCount_take_succ (X : String) (lines : List Line) (k : Nat) :
    toolStartCount X (lines.take (k + 1)) =
      toolStartCount X (lines.take k) + toolWeight X lines k := by
  rcases hg : lines[k]? with _ | l
  · have hlen : lines.length ≤ k := by
      by_contra hlt
      push_neg at hlt
      rw [List.getElem?_eq_getElem hlt] at hg
      cases hg
    rw [List.take_of_length_le (Nat.le_succ_of_le hlen), List.take_of_length_le hlen]
    simp [toolWeight, hg]
  · rw [List.take_succ, hg]
    unfold toolStartCount
    rw [List.countP_append]
    simp [toolWeight, hg, List.countP_cons]

theorem kmStartCount_take_succ (m X : String) (lines : List Line) (k : Nat) :
    kmStartCount m X (lines.take (k + 1)) =
      kmStartCount m X (lines.take k) + kmWeight m X lines k := by
  rcases hg : lines[k]? with _ | l
  · have hlen : lines.length ≤ k := by
      by_contra hlt
      push_neg at hlt
      rw [List.getElem?_eq_getElem hlt] at hg
      cases hg
    rw [List.take_of_length_le (Nat.le_succ_of_le hlen), List.take_of_length_le hlen]
    simp [kmWeight, hg]
  · rw [List.take_succ, hg]
    unfold kmStartCount
    rw [List.countP_append]
    simp [kmWeight, hg, List.countP_cons]

theorem llmStartCount_take_succ (X : String) (lines : List Line) (k : Nat) :
    llmStartCount X (lines.take (k + 1)) =
      llmStartCount X (lines.take k) + llmWeight X lines k := by
  rcases hg : lines[k]? with _ | l
  · have hlen : lines.length ≤ k := by
      by_contra hlt
      push_neg at hlt
      rw [List.getElem?_eq_getElem hlt] at hg
      cases hg
    rw [List.take_of_length_le (Nat.le_succ_of_le hlen), List.take_of_length_le hlen]
    simp [llmWeight, hg]
  · rw [List.take_succ, hg]
    unfold llmStartCount
    rw [List.countP_append]
    simp [llmWeight, hg, List.countP_cons]

theorem runUpTo_tool_bound (lines : List Line) (X : String) : ∀ k : Nat,
    toolRecCount X (runUpTo lines k).enhancements + toolOpenInd (runUpTo lines k) X ≤
      toolStartCount X (lines.take k) := by
  intro k
  induction k with
  | zero =>
    simp [runUpTo, initState, toolRecCount, toolOpenInd, toolStartCount, dictFind]
  | succ n ih =>
    rw [runUpTo_succ, toolStartCount_take_succ X lines n]
    have hstep := processLine_tool_bound lines X n (runUpTo lines n) (runUpTo_ok lines n)
    omega

theorem processLine_km_bound (lines : List Line) (m X : String) (i : Nat)
    (st : PState) (hok : StateOK st) :
    kmRecCount m X (processLine lines i st).enhancements +
      kmOpenInd (processLine lines i st) m X ≤
    kmRecCount m X st.enhancements + kmOpenInd st m X + kmWeight m X lines i := by
  rcases hg : lines[i]? with _ | line
  · rw [processLine_outOfRange lines i st hg]
    exact Nat.le_add_right _ _
  · rcases hts : line.timestamp with _ | ts
    · rw [processLine_noTimestamp lines i st line hg hts]
      exact Nat.le_add_right _ _
    · rw [processLine_run lines i st line ts hg hts]
      have hw : kmWeight m X lines i =
          (if line.knowledgeStart == some (m, X) then 1 else 0) := by
        simp [kmWeight, hg, hts]
      have hok1 : StateOK (toolStartPhase line i ts st) := toolStartPhase_ok _ _ _ _ hok
      have hok2 : StateOK (noToolsPhase line (toolStartPhase line i ts st)) :=
        noToolsPhase_ok _ _ hok1
      have hok3 : StateOK (toolEndPhase line i ts
          (noToolsPhase line (toolStartPhase line i ts st))) :=
        toolEndPhase_ok _ _ _ _ hok2
      have hok4 : StateOK (knowledgeStartPhase line i ts
          (toolEndPhase line i ts (noToolsPhase line (toolStartPhase line i ts st)))) :=
        knowledgeStartPhase_ok _ _ _ _ hok3
      have p1 : ∀ st' : PState,
          kmRecCount m X (toolStartPhase line i ts st').enhancements +
            kmOpenInd (toolStartPhase line i ts st') m X =
          kmRecCount m X st'.enhancements + kmOpenInd st' m X := by
        intro st'
        obtain ⟨e1, e2, _, _, _, _⟩ := toolStartPhase_other line i ts st'
        rw [kmRecCount, e1, kmOpenInd, e2]
        rfl
      have p2 : ∀ st' : PState,
          kmRecCount m X (noToolsPhase line st').enhancements +
            kmOpenInd (noToolsPhase line st') m X =
          kmRecCount m X st'.enhancements + kmOpenInd st' m X := by
        intro st'
        obtain ⟨e1, _, e2, _, _, _⟩ := noToolsPhase_other line st'
        rw [kmRecCount, e1, kmOpenInd, e2]
        rfl
      have p3 : ∀ st' : PState,
          kmRecCount m X (toolEndPhase line i ts st').enhancements +
            kmOpenInd (toolEndPhase line i ts st') m X =
          kmRecCount m X st'.enhancements + kmOpenInd st' m X := by
        intro st'
        obtain ⟨e2, _, _⟩ := toolEndPhase_other line i ts st'
        rw [(toolEndPhase_other_counts line i ts st' m X).1, kmOpenInd, e2]
        rfl
      have p4 : ∀ st' : PState,
          kmRecCount m X (knowledgeStartPhase line i ts st').enhancements +
            kmOpenInd (knowledgeStartPhase line i ts st') m X ≤
          kmRecCount m X st'.enhancements + kmOpenInd st' m X +
            (if line.knowledgeStart == some (m, X) then 1 else 0) := by
        intro st'
        have henh : (knowledgeStartPhase line i ts st').enhancements = st'.enhancements :=
          (knowledgeStartPhase_other line i ts st').1
        rcases hs : line.knowledgeStart with _ | p
        · rw [knowledgeStartPhase_none _ _ _ _ hs]
          exact Nat.le_add_right _ _
        · rcases p with ⟨m', kid⟩
          have hak : (knowledgeStartPhase line i ts st').active_knowledge =
              dictInsert st'.active_knowledge m'
                (dictInsert ((dictFind st'.active_knowledge m').getD []) kid ⟨i + 1, ts⟩) := by
            rw [knowledgeStartPhase_some _ _ _ _ _ _ hs]
          rw [kmRecCount, henh, kmOpenInd, hak, ← kmRecCount]
          by_cases hmm : m' = m
          · by_cases hkX : kid = X
            · have hfm : dictFind (dictInsert st'.active_knowledge m'
                  (dictInsert ((dictFind st'.active_knowledge m').getD []) kid ⟨i + 1, ts⟩)) m =
                  some (dictInsert ((dictFind st'.active_knowledge m').getD []) kid ⟨i + 1, ts⟩) := by
                rw [← hmm]
                exact dictFind_insert_self _ _ _
              have hfk : dictFind (dictInsert ((dictFind st'.active_knowledge m').getD [])
                  kid ⟨i + 1, ts⟩) X = some ⟨i + 1, ts⟩ := by
                rw [← hkX]
                exact dictFind_insert_self _ _ _
              have hwt : (some (m', kid) == some (m, X)) = true := by
                rw [hmm, hkX]
                simp
              have hbind : ((some (dictInsert ((dictFind st'.active_knowledge m').getD [])
                  kid ⟨i + 1, ts⟩)).bind (fun inner => dictFind inner X)).isSome.toNat = 1 := by
                simp [hfk]
              rw [hfm, hwt, hbind]
              simp only [if_true]
              omega
            · have hfm : dictFind (dictInsert st'.active_knowledge m'
                  (dictInsert ((dictFind st'.active_knowledge m').getD []) kid ⟨i + 1, ts⟩)) m =
                  some (dictInsert ((dictFind st'.active_knowledge m').getD []) kid ⟨i + 1, ts⟩) := by
                rw [← hmm]
                exact dictFind_insert_self _ _ _
              have hfk : dictFind (dictInsert ((dictFind st'.active_knowledge m').getD [])
                  kid ⟨i + 1, ts⟩) X = dictFind ((dictFind st'.active_knowledge m').getD []) X :=
                dictFind_insert_ne _ _ _ _ (fun hh => hkX hh.symm)
              rw [hfm]
              have hsame : (some (dictInsert ((dictFind st'.active_knowledge m').getD [])
                  kid ⟨i + 1, ts⟩)).bind (fun inner => dictFind inner X) =
                  (dictFind st'.active_knowledge m).bind (fun inner => dictFind inner X) := by
                rcases hfo : dictFind st'.active_knowledge m with _ | oldinner
                · have hfo' : dictFind st'.active_knowledge m' = none := by
                    rw [hmm]
                    exact hfo
                  simp [hfk, hfo, hfo', dictFind, hkX]
                · have hfo' : dictFind st'.active_knowledge m' = some oldinner := by
                    rw [hmm]
                    exact hfo
                  simp only [hfo', hfo, Option.getD_some, Option.some_bind]
                  rw [dictFind_insert_ne _ _ _ _ (fun hh => hkX hh.symm)]
              rw [hsame]
              exact Nat.le_add_right _ _
          · have hfm : dictFind (dictInsert st'.active_knowledge m'
                (dictInsert ((dictFind st'.active_knowledge m').getD []) kid ⟨i + 1, ts⟩)) m =
                dictFind st'.active_knowledge m :=
              dictFind_insert_ne _ _ _ _ (fun hh => hmm hh.symm)
            rw [hfm]
            exact Nat.le_add_right _ _
      have p5 : ∀ st' : PState, StateOK st' →
          kmRecCount m X (knowledgeEndPhase lines line i ts st').enhancements +
            kmOpenInd (knowledgeEndPhase lines line i ts st') m X ≤
          kmRecCount m X st'.enhancements + kmOpenInd st' m X := by
        intro st' hok'
        rcases hk : line.knowledgeEnd with _ | p
        · rw [knowledgeEndPhase_none _ _ _ _ _ hk]
        · rcases p with ⟨m', kid⟩
          rcases hm : dictFind st'.active_knowledge m' with _ | inner
          · rw [knowledgeEndPhase_noMethod _ _ _ _ _ _ _ hk hm]
          · rcases hkid : dictFind inner kid with _ | knowledge
            · rw [knowledgeEndPhase_notOpen _ _ _ _ _ _ _ _ hk hm hkid]
            · have hnd : DictNodup inner := hok'.2.2 m' inner hm
              have henh : (knowledgeEndPhase lines line i ts st').enhancements =
                  st'.enhancements ++
                    [_create_enhancement_record (EnhType.knowledge m')
                      knowledge.start_time ts knowledge.line_num (i + 1) kid
                      (if m' = "2" then nextDiscard lines (i + 1) kid else false) none] := by
                rw [knowledgeEndPhase_close _ _ _ _ _ _ _ _ _ hk hm hkid]
              have hak : (knowledgeEndPhase lines line i ts st').active_knowledge =
                  dictInsert st'.active_knowledge m' (dictErase inner kid) := by
                rw [knowledgeEndPhase_close _ _ _ _ _ _ _ _ _ hk hm hkid]
              rw [kmRecCount, henh, List.countP_append, kmOpenInd, hak, ← kmRecCount]
              by_cases hmm : m' = m
              · by_cases hkX : kid = X
                · have hone : List.countP (fun e => e.type == EnhType.knowledge m &&
                      e.node_id == X)
                      [_create_enhancement_record (EnhType.knowledge m')
                        knowledge.start_time ts knowledge.line_num (i + 1) kid
                        (if m' = "2" then nextDiscard lines (i + 1) kid else false) none] = 1 := by
                    simp [_create_enhancement_record, hmm, hkX]
                  have hfm : dictFind (dictInsert st'.active_knowledge m'
                      (dictErase inner kid)) m = some (dictErase inner kid) := by
                    rw [← hmm]
                    exact dictFind_insert_self _ _ _
                  have hfk : dictFind (dictErase inner kid) X = none := by
                    rw [← hkX]
                    exact dictFind_erase_self _ _ hnd
                  have hmX : dictFind st'.active_knowledge m = some inner := by
                    rw [← hmm]
                    exact hm
                  have hkidX : dictFind inner X = some knowledge := by
                    rw [← hkX]
                    exact hkid
                  rw [hone, hfm]
                  simp [hfk, hmX, hkidX, kmRecCount, kmOpenInd]
                · have hzero : List.countP (fun e => e.type == EnhType.knowledge m &&
                      e.node_id == X)
                      [_create_enhancement_record (EnhType.knowledge m')
                        knowledge.start_time ts knowledge.line_num (i + 1) kid
                        (if m' = "2" then nextDiscard lines (i + 1) kid else false) none] = 0 := by
                    simp [_create_enhancement_record, hkX]
                  have hfm : dictFind (dictInsert st'.active_knowledge m'
                      (dictErase inner kid)) m = some (dictErase inner kid) := by
                    rw [← hmm]
                    exact dictFind_insert_self _ _ _
                  have hfk : dictFind (dictErase inner kid) X = dictFind inner X :=
                    dictFind_erase_ne _ _ _ (fun hh => hkX hh.symm)
                  have hmX : dictFind st'.active_knowledge m = some inner := by
                    rw [← hmm]
                    exact hm
                  rw [hzero, hfm]
                  simp [hfk, hmX, kmRecCount, kmOpenInd]
              · have hzero : List.countP (fun e => e.type == EnhType.knowledge m &&
                    e.node_id == X)
                    [_create_enhancement_record (EnhType.knowledge m')
                      knowledge.start_time ts knowledge.line_num (i + 1) kid
                      (if m' = "2" then nextDiscard lines (i + 1) kid else false) none] = 0 := by
                  simp [_create_enhancement_record, hmm]
                have hfm : dictFind (dictInsert st'.active_knowledge m'
                    (dictErase inner kid)) m = dictFind st'.active_knowledge m :=
                  dictFind_insert_ne _ _ _ _ (fun hh => hmm hh.symm)
                rw [hzero, hfm]
                simp [kmRecCount, kmOpenInd]
      have p6 : ∀ st' : PState,
          kmRecCount m X (llmStartPhase lines line i ts st').enhancements +
            kmOpenInd (llmStartPhase lines line i ts st') m X =
          kmRecCount m X st'.enhancements + kmOpenInd st' m X := by
        intro st'
        obtain ⟨e1, _, e2, _, _⟩ := llmStartPhase_other lines line i ts st'
        rw [kmRecCount, e1, kmOpenInd, e2]
        rfl
      have p7 : ∀ st' : PState,
          kmRecCount m X (llmEndPhase line i ts st').enhancements +
            kmOpenInd (llmEndPhase line i ts st') m X =
          kmRecCount m X st'.enhancements + kmOpenInd st' m X := by
        intro st'
        obtain ⟨_, e2, _, _, _⟩ := llmEndPhase_other line i ts st'
        rw [(llmEndPhase_other_counts line i ts st' m X).2, kmOpenInd, e2]
        rfl
      rw [hw, p7, p6]
      have h5 := p5 (knowledgeStartPhase line i ts
        (toolEndPhase line i ts (noToolsPhase line (toolStartPhase line i ts st)))) hok4
      have h4 := p4 (toolEndPhase line i ts (noToolsPhase line (toolStartPhase line i ts st)))
      rw [p3, p2, p1] at h4
      omega

theorem processLine_llm_bound (lines : List Line) (X : String) (i : Nat)
    (st : PState) (hok : StateOK st) :
    llmRecCount X (processLine lines i st).enhancements +
      llmOpenInd (processLine lines i st) X ≤
    llmRecCount X st.enhancements + llmOpenInd st X + llmWeight X lines i := by
  rcases hg : lines[i]? with _ | line
  · rw [processLine_outOfRange lines i st hg]
    exact Nat.le_add_right _ _
  · rcases hts : line.timestamp with _ | ts
    · rw [processLine_noTimestamp lines i st line hg hts]
      exact Nat.le_add_right _ _
    · rw [processLine_run lines i st line ts hg hts]
      have hw : llmWeight X lines i = (if line.llmStart == some X then 1 else 0) := by
        simp [llmWeight, hg, hts]
      have hok5 : StateOK (knowledgeEndPhase lines line i ts
          (knowledgeStartPhase line i ts (toolEndPhase line i ts
            (noToolsPhase line (toolStartPhase line i ts st))))) :=
        knowledgeEndPhase_ok _ _ _ _ _ (knowledgeStartPhase_ok _ _ _ _
          (toolEndPhase_ok _ _ _ _ (noToolsPhase_ok _ _ (toolStartPhase_ok _ _ _ _ hok))))
      have hok6 : StateOK (llmStartPhase lines line i ts (knowledgeEndPhase lines line i ts
          (knowledgeStartPhase line i ts (toolEndPhase line i ts
            (noToolsPhase line (toolStartPhase line i ts st)))))) :=
        llmStartPhase_ok _ _ _ _ _ hok5
      have p1 : ∀ st' : PState,
          llmRecCount X (toolStartPhase line i ts st').enhancements +
            llmOpenInd (toolStartPhase line i ts st') X =
          llmRecCount X st'.enhancements + llmOpenInd st' X := by
        intro st'
        obtain ⟨e1, _, e2, _, _, _⟩ := toolStartPhase_other line i ts st'
        rw [llmRecCount, e1, llmOpenInd, e2]
        rfl
      have p2 : ∀ st' : PState,
          llmRecCount X (noToolsPhase line st').enhancements +
            llmOpenInd (noToolsPhase line st') X =
          llmRecCount X st'.enhancements + llmOpenInd st' X := by
        intro st'
        obtain ⟨e1, _, _, e2, _, _⟩ := noToolsPhase_other line st'
        rw [llmRecCount, e1, llmOpenInd, e2]
        rfl
      have p3 : ∀ st' : PState,
          llmRecCount X (toolEndPhase line i ts st').enhancements +
            llmOpenInd (toolEndPhase line i ts st') X =
          llmRecCount X st'.enhancements + llmOpenInd st' X := by
        intro st'
        obtain ⟨_, e2, _⟩ := toolEndPhase_other line i ts st'
        rw [(toolEndPhase_other_counts line i ts st' "" X).2, llmOpenInd, e2]
        rfl
      have p4 : ∀ st' : PState,
          llmRecCount X (knowledgeStartPhase line i ts st').enhancements +
            llmOpenInd (knowledgeStartPhase line i ts st') X =
          llmRecCount X st'.enhancements + llmOpenInd st' X := by
        intro st'
        obtain ⟨e1, _, e2, _, _, _⟩ := knowledgeStartPhase_other line i ts st'
        rw [llmRecCount, e1, llmOpenInd, e2]
        rfl
      have p5 : ∀ st' : PState,
          llmRecCount X (knowledgeEndPhase lines line i ts st').enhancements +
            llmOpenInd (knowledgeEndPhase lines line i ts st') X =
          llmRecCount X st'.enhancements + llmOpenInd st' X := by
        intro st'
        obtain ⟨_, e2, _, _, _⟩ := knowledgeEndPhase_other lines line i ts st'
        rw [(knowledgeEndPhase_other_counts lines line i ts st' X).2, llmOpenInd, e2]
        rfl
      have p6 : ∀ st' : PState,
          llmRecCount X (llmStartPhase lines line i ts st').enhancements +
            llmOpenInd (llmStartPhase lines line i ts st') X ≤
          llmRecCount X st'.enhancements + llmOpenInd st' X +
            (if line.llmStart == some X then 1 else 0) := by
        intro st'
        have henh : (llmStartPhase lines line i ts st').enhancements = st'.enhancements :=
          (llmStartPhase_other lines line i ts st').1
        rcases hs : line.llmStart with _ | lid
        · rw [llmStartPhase_none _ _ _ _ _ hs]
          exact Nat.le_add_right _ _
        · rcases ho : dictFind st'.active_llm_calls lid with _ | entry
          · have hal : (llmStartPhase lines line i ts st').active_llm_calls =
                dictInsert st'.active_llm_calls lid
                  ⟨i + 1, ts, (llmLink lines i st'.last_finished_tool_id).1⟩ := by
              rw [llmStartPhase_some_new _ _ _ _ _ _ hs ho]
            rw [llmRecCount, henh, llmOpenInd, hal, ← llmRecCount]
            by_cases hlX : lid = X
            · have hfi : dictFind (dictInsert st'.active_llm_calls lid
                  ⟨i + 1, ts, (llmLink lines i st'.last_finished_tool_id).1⟩) X =
                  some ⟨i + 1, ts, (llmLink lines i st'.last_finished_tool_id).1⟩ := by
                rw [← hlX]
                exact dictFind_insert_self _ _ _
              have hwt : (some lid == some X) = true := by
                rw [hlX]
                simp
              rw [hfi, hwt]
              simp only [Option.isSome_some, Bool.toNat_true, if_true]
              omega
            · have hfi : dictFind (dictInsert st'.active_llm_calls lid
                  ⟨i + 1, ts, (llmLink lines i st'.last_finished_tool_id).1⟩) X =
                  dictFind st'.active_llm_calls X :=
                dictFind_insert_ne _ _ _ _ (fun hh => hlX hh.symm)
              rw [hfi]
              exact Nat.le_add_right _ _
          · have hal : (llmStartPhase lines line i ts st').active_llm_calls =
                dictInsert st'.active_llm_calls lid
                  ⟨i + 1, ts,
                    match (llmLink lines i st'.last_finished_tool_id).1 with
                    | some t => some t
                    | none => entry.tool_id⟩ := by
              rw [llmStartPhase_some_rearm _ _ _ _ _ _ _ hs ho]
            rw [llmRecCount, henh, llmOpenInd, hal, ← llmRecCount]
            by_cases hlX : lid = X
            · have hfi : dictFind (dictInsert st'.active_llm_calls lid
                  ⟨i + 1, ts,
                    match (llmLink lines i st'.last_finished_tool_id).1 with
                    | some t => some t
                    | none => entry.tool_id⟩) X =
                  some ⟨i + 1, ts,
                    match (llmLink lines i st'.last_finished_tool_id).1 with
                    | some t => some t
                    | none => entry.tool_id⟩ := by
                rw [← hlX]
                exact dictFind_insert_self _ _ _
              have hwt : (some lid == some X) = true := by
                rw [hlX]
                simp
              rw [hfi, hwt]
              simp only [Option.isSome_some, Bool.toNat_true, if_true]
              omega
            · have hfi : dictFind (dictInsert st'.active_llm_calls lid
                  ⟨i + 1, ts,
                    match (llmLink lines i st'.last_finished_tool_id).1 with
                    | some t => some t
                    | none => entry.tool_id⟩) X =
                  dictFind st'.active_llm_calls X :=
                dictFind_insert_ne _ _ _ _ (fun hh => hlX hh.symm)
              rw [hfi]
              exact Nat.le_add_right _ _
      have p7 : ∀ st' : PState, StateOK st' →
          llmRecCount X (llmEndPhase line i ts st').enhancements +
            llmOpenInd (llmEndPhase line i ts st') X ≤
          llmRecCount X st'.enhancements + llmOpenInd st' X := by
        intro st' hok'
        rcases hl : line.llmEnd with _ | lid
        · rw [llmEndPhase_none _ _ _ _ hl]
        · rcases ho : dictFind st'.active_llm_calls lid with _ | llm_call
          · rw [llmEndPhase_notOpen _ _ _ _ _ hl ho]
          · have hgen : ∀ tail : List Enh,
                (∀ e ∈ tail, (e.type == EnhType.llmCall && e.node_id == X) = false) →
                llmRecCount X (st'.enhancements ++
                  [_create_enhancement_record EnhType.llmCall llm_call.start_time ts
                    llm_call.line_num (i + 1) lid false llm_call.tool_id] ++ tail) +
                  (dictFind (dictErase st'.active_llm_calls lid) X).isSome.toNat ≤
                llmRecCount X st'.enhancements + llmOpenInd st' X := by
              intro tail htail
              have htailcount : tail.countP
                  (fun e => e.type == EnhType.llmCall && e.node_id == X) = 0 := by
                rw [List.countP_eq_zero]
                intro a ha
                simp [htail a ha]
              by_cases hlX : lid = X
              · have hia : dictFind (dictErase st'.active_llm_calls lid) X = none := by
                  rw [← hlX]
                  exact dictFind_erase_self _ _ hok'.2.1
                have hoX : dictFind st'.active_llm_calls X = some llm_call := by
                  rw [← hlX]
                  exact ho
                have hcount : llmRecCount X (st'.enhancements ++
                    [_create_enhancement_record EnhType.llmCall llm_call.start_time ts
                      llm_call.line_num (i + 1) lid false llm_call.tool_id] ++ tail) =
                    llmRecCount X st'.enhancements + 1 := by
                  rw [llmRecCount, List.countP_append, List.countP_append, htailcount]
                  simp [llmRecCount, _create_enhancement_record, hlX]
                rw [hcount, hia]
                simp [llmOpenInd, hoX]
              · have hia : dictFind (dictErase st'.active_llm_calls lid) X =
                    dictFind st'.active_llm_calls X :=
                  dictFind_erase_ne _ _ _ (fun hh => hlX hh.symm)
                have hcount : llmRecCount X (st'.enhancements ++
                    [_create_enhancement_record EnhType.llmCall llm_call.start_time ts
                      llm_call.line_num (i + 1) lid false llm_call.tool_id] ++ tail) =
                    llmRecCount X st'.enhancements := by
                  rw [llmRecCount, List.countP_append, List.countP_append, htailcount]
                  simp [llmRecCount, _create_enhancement_record, hlX]
                rw [hcount, hia]
                exact le_refl _
            rcases htid : llm_call.tool_id with _ | tid
            · have heq : (llmEndPhase line i ts st').enhancements =
                  st'.enhancements ++
                    [_create_enhancement_record EnhType.llmCall llm_call.start_time ts
                      llm_call.line_num (i + 1) lid false llm_call.tool_id] ++ [] := by
                rw [llmEndPhase_close_noLink _ _ _ _ _ _ hl ho htid]
                simp
              have hal : (llmEndPhase line i ts st').active_llm_calls =
                  dictErase st'.active_llm_calls lid := by
                rw [llmEndPhase_close_noLink _ _ _ _ _ _ hl ho htid]
              rw [llmRecCount, heq, llmOpenInd, hal, ← llmRecCount]
              exact hgen [] (fun e he => nomatch he)
            · rcases hmap : dictFind st'.finished_tool_map tid with _ | tool_record
              · have heq : (llmEndPhase line i ts st').enhancements =
                    st'.enhancements ++
                      [_create_enhancement_record EnhType.llmCall llm_call.start_time ts
                        llm_call.line_num (i + 1) lid false llm_call.tool_id] ++ [] := by
                  rw [llmEndPhase_close_linkMissing _ _ _ _ _ _ _ hl ho htid hmap]
                  simp
                have hal : (llmEndPhase line i ts st').active_llm_calls =
                    dictErase st'.active_llm_calls lid := by
                  rw [llmEndPhase_close_linkMissing _ _ _ _ _ _ _ hl ho htid hmap]
                rw [llmRecCount, heq, llmOpenInd, hal, ← llmRecCount]
                exact hgen [] (fun e he => nomatch he)
              · have heq : (llmEndPhase line i ts st').enhancements =
                    st'.enhancements ++
                      [_create_enhancement_record EnhType.llmCall llm_call.start_time ts
                        llm_call.line_num (i + 1) lid false llm_call.tool_id] ++
                      [{ type := EnhType.toolComplete
                         start_time := tool_record.start_time
                         end_time := ts
                         duration_seconds := tool_record.duration_seconds + (ts - llm_call.start_time)
                         start_line := tool_record.start_line
                         end_line := i + 1
                         node_id := tid
                         has_error := false
                         tool_id := some tid
                         llm_id := some lid
                         tool_duration := some tool_record.duration_seconds
                         llm_duration := some (ts - llm_call.start_time) }] := by
                  rw [llmEndPhase_close_complete _ _ _ _ _ _ _ _ hl ho htid hmap]
                have hal : (llmEndPhase line i ts st').active_llm_calls =
                    dictErase st'.active_llm_calls lid := by
                  rw [llmEndPhase_close_complete _ _ _ _ _ _ _ _ hl ho htid hmap]
                rw [llmRecCount, heq, llmOpenInd, hal, ← llmRecCount]
                refine hgen _ ?_
                intro e he
                rw [List.mem_singleton] at he
                subst he
                rfl
      rw [hw]
      have h7 := p7 (llmStartPhase lines line i ts (knowledgeEndPhase lines line i ts
        (knowledgeStartPhase line i ts (toolEndPhase line i ts
          (noToolsPhase line (toolStartPhase line i ts st)))))) hok6
      have h6 := p6 (knowledgeEndPhase lines line i ts
        (knowledgeStartPhase line i ts (toolEndPhase line i ts
          (noToolsPhase line (toolStartPhase line i ts st)))))
      rw [p5, p4, p3, p2, p1] at h6
      omega

theorem runUpTo_km_bound (lines : List Line) (m X : String) : ∀ k : Nat,
    kmRecCount m X (runUpTo lines k).enhancements + kmOpenInd (runUpTo lines k) m X ≤
      kmStartCount m X (lines.take k) := by
  intro k
  induction k with
  | zero =>
    simp [runUpTo, initState, kmRecCount, kmOpenInd, kmStartCount, dictFind]
  | succ n ih =>
    rw [runUpTo_succ, kmStartCount_take_succ m X lines n]
    have hstep := processLine_km_bound lines m X n (runUpTo lines n) (runUpTo_ok lines n)
    omega

theorem runUpTo_llm_bound (lines : List Line) (X : String) : ∀ k : Nat,
    llmRecCount X (runUpTo lines k).enhancements + llmOpenInd (runUpTo lines k) X ≤
      llmStartCount X (lines.take k) := by
  intro k
  induction k with
  | zero =>
    simp [runUpTo, initState, llmRecCount, llmOpenInd, llmStartCount, dictFind]
  | succ n ih =>
    rw [runUpTo_succ, llmStartCount_take_succ X lines n]
    have hstep := processLine_llm_bound lines X n (runUpTo lines n) (runUpTo_ok lines n)
    omega

/-- Claim C3 (amended): per category and identifier, the number of emitted
EventRecords (tool records counting finished, failed and skipped together and
excluding the composite tool-complete records; knowledge records per method
tag; LLM-call records) never exceeds the number of effective start markers
for that identifier in the log.  In particular an identifier started once per
category closes at most once for that category; it can only close again after
being re-started. -/
theorem per_category_at_most_one_close_per_start (lines : List Line)
    (m X : String) :
    toolRecCount X (extract_enhancement_times lines) ≤ toolStartCount X lines ∧
    kmRecCount m X (extract_enhancement_times lines) ≤ kmStartCount m X lines ∧
    llmRecCount X (extract_enhancement_times lines) ≤ llmStartCount X lines := by
  have htake : lines.take lines.length = lines := List.take_length lines
  have hmapcount : ∀ d : List (String × OpenTool),
      (d.map (fun p => eofSkipRecord p.1 p.2)).countP (isToolRecord X) =
        d.countP (fun p => p.1 == X) := by
    intro d
    induction d with
    | nil => rfl
    | cons p rest ih =>
      rw [List.map_cons, List.countP_cons, List.countP_cons, ih]
      by_cases hp : p.1 = X <;>
        simp [isToolRecord, eofSkipRecord, _create_enhancement_record, hp]
  refine ⟨?_, ?_, ?_⟩
  · have hb := runUpTo_tool_bound lines X lines.length
    rw [htake] at hb
    have hext : toolRecCount X (extract_enhancement_times lines) =
        toolRecCount X (runLines lines).enhancements +
          (runLines lines).active_tools.countP (fun p => p.1 == X) := by
      unfold extract_enhancement_times toolRecCount
      rw [List.countP_append, hmapcount]
    rw [hext, runLines_eq_runUpTo,
      dict_countP_key _ _ (runUpTo_ok lines lines.length).1]
    simpa [toolOpenInd] using hb
  · have hb := runUpTo_km_bound lines m X lines.length
    rw [htake] at hb
    have hext : kmRecCount m X (extract_enhancement_times lines) =
        kmRecCount m X (runLines lines).enhancements := by
      unfold extract_enhancement_times kmRecCount
      rw [List.countP_append]
      have hz : ((runLines lines).active_tools.map
          (fun p => eofSkipRecord p.1 p.2)).countP
          (fun e => e.type == EnhType.knowledge m && e.node_id == X) = 0 := by
        rw [List.countP_eq_zero]
        intro a ha
        rw [List.mem_map] at ha
        obtain ⟨p, _, hpe⟩ := ha
        subst hpe
        simp [eofSkipRecord, _create_enhancement_record]
      rw [hz, Nat.add_zero]
    rw [hext, runLines_eq_runUpTo]
    unfold kmRecCount at hb ⊢
    omega
  · have hb := runUpTo_llm_bound lines X lines.length
    rw [htake] at hb
    have hext : llmRecCount X (extract_enhancement_times lines) =
        llmRecCount X (runLines lines).enhancements := by
      unfold extract_enhancement_times llmRecCount
      rw [List.countP_append]
      have hz : ((runLines lines).active_tools.map
          (fun p => eofSkipRecord p.1 p.2)).countP
          (fun e => e.type == EnhType.llmCall && e.node_id == X) = 0 := by
        rw [List.countP_eq_zero]
        intro a ha
        rw [List.mem_map] at ha
        obtain ⟨p, _, hpe⟩ := ha
        subst hpe
        simp [eofSkipRecord, _create_enhancement_record]
      rw [hz, Nat.add_zero]
    rw [hext, runLines_eq_runUpTo]
    omega
